import Mathlib

/-!
# zadara-metering: a shallow embedding of the metering ingestion pipeline

Source files embedded here: `metering.go`, `dataio.go`, `main.go` of
`zadara-metering`.

Conventions of the embedding.

* A Go function returning `(x, err)` becomes a function into `Except Err _`.
  `Err.error` is an error value handed back to the caller, `Err.panic` is a
  run-time panic (failed type assertion, index out of range).
* A Go `map[string]T` is an association list with one entry per key
  (`GoMap.set` replaces an existing entry).  A `range` over a map visits the
  entries in an unspecified order; the row handed to the classification loop
  is therefore a list of `(column, value)` pairs in the order of the visit.
* The embedded relational store and the time-series sink are external: their
  answers are oracle fields of `Store`, `Sink` and `Lib`.
* `count`, an `int` of the source, is a `Nat`: it only counts rows upward.
-/

namespace ZadaraMetering

/-! ## Errors and values -/

/-- Failure of an embedded operation: a returned `error` or a run-time panic. -/
inductive Err where
  | error (msg : String)
  | panic (msg : String)
  deriving DecidableEq, Repr

/-- A scanned column value, as `database/sql` hands it over in an empty
interface: `nil`, `[]uint8`, `int64`, `float64` (kept as its IEEE-754 bit
pattern) or `time.Time` (an instant counted from Go's zero time). -/
inductive Value where
  | null
  | bytes (s : String)
  | int (i : Int)
  | real (bits : Nat)
  | time (t : Int)
  deriving DecidableEq, Repr

deriving instance DecidableEq for Except

/-- A Go `map[string]α`, one entry per key. -/
abbrev GoMap (α : Type) := List (String × α)

/-- Assignment `m[k] = v`. -/
def GoMap.set {α : Type} (m : GoMap α) (k : String) (v : α) : GoMap α :=
  m.filter (fun p => p.1 ≠ k) ++ [(k, v)]

/-- Keys of a map. -/
def GoMap.keys {α : Type} (m : GoMap α) : List String := m.map Prod.fst

/-- A raw result row: column name and value, in the order the `range` visits. -/
abbrev Row := List (String × Value)

/-! ## `getVPSANameFromPath` (metering.go 348-356) -/

/-- Go `strings.Split(s, sep)` for a one-character separator, on characters. -/
def splitChars (sep : Char) : List Char → List (List Char)
  | [] => [[]]
  | c :: cs =>
    if c = sep then [] :: splitChars sep cs
    else
      match splitChars sep cs with
      | [] => [[c]]
      | p :: ps => (c :: p) :: ps

/-- Go `strings.Split(s, string(os.PathSeparator))`. -/
def stringsSplit (s : String) (sep : Char) : List String :=
  (splitChars sep s.data).map String.mk

/-- The value of `os.PathSeparator` on the platforms the tool runs on. -/
def pathSeparator : Char := '/'

/-- Go slice indexing `parts[i]` with a signed index: a panic when `i` is out of range. -/
def indexParts (parts : List String) (i : Int) : Except Err String :=
  if i < 0 then .error (.panic "index out of range")
  else
    match parts.get? i.toNat with
    | some p => .ok p
    | none => .error (.panic "index out of range")

/-- Embedding of `getVPSANameFromPath`. -/
def getVPSANameFromPath (meteringFilePath : String) : Except Err String :=
  let parts := stringsSplit meteringFilePath pathSeparator
  if parts.length < 1 then
    .error (.error ("could not split path by directory separator: " ++ meteringFilePath))
  else
    indexParts parts ((parts.length : Int) - 2)

/-! ## The embedded store (`d.input`) -/

/-- One row of `sqlite_master`: columns `type`, `name` and `sql` (the stored
definition text, `NULL` for automatic indexes). -/
structure MasterRow where
  kind : String
  name : String
  sql : Option String
  deriving DecidableEq, Repr

/-- Statements of the source whose effect on the store is modelled; the
fault oracle of a store is keyed by them. -/
inductive Stmt where
  | selectDevTypesName
  | createDevTypesTable
  | beginx
  | insertDevType (t : Int) (n : String)
  | commit
  | countMsColumn
  deriving DecidableEq, Repr

/-- The store behind `d.input`.

* `master` is `sqlite_master`; `devTypesRows` are the committed rows of
  `dev_types`, in insertion order.
* `countRows name` is the outcome of `SELECT count(*) FROM <name>` scanned
  into an `int`.
* `queryx q` is the outcome of `Queryx(q)`: the rows `rows.Next()` yields,
  each with the outcome of its `rows.MapScan`.
* `fault st` is the error with which the engine rejects statement `st`, if
  it does. -/
structure Store where
  master : List MasterRow
  devTypesRows : List (Int × String)
  countRows : String → Except Err Int
  queryx : String → Except Err (List (Except Err Row))
  fault : Stmt → Option Err

/-! ## `devTypes` and `createDevTypes` (dataio.go 28-43, metering.go 32-68) -/

/-- The fixed device-type enumeration, in declared order. -/
def devTypes : List (Int × String) :=
  [(1, "VOLUME"), (2, "RAID-GROUP"), (3, "DRIVE"), (4, "POOL"), (5, "SYSTEM"),
   (6, "MIRROR"), (7, "ZCACHE"), (8, "DMBTRFS"), (9, "BTRFS"), (10, "BLOCK"),
   (11, "NOVA"), (12, "SWIFT"), (13, "MIGRATION"), (14, "OBJECT-STORAGE")]

/-- Whether `SELECT name FROM sqlite_master WHERE type = 'table' AND name =
'dev_types'` has a row. -/
def hasDevTypesTable (d : Store) : Bool :=
  d.master.any (fun r => r.kind = "table" ∧ r.name = "dev_types")

/-- The `sqlite_master` row that `CREATE TABLE dev_types (...)` adds. -/
def devTypesMasterRow : MasterRow :=
  ⟨"table", "dev_types", some "CREATE TABLE dev_types (dev_type integer, dev_name varchar)"⟩

/-- The insert loop of `createDevTypes` inside the transaction: `pending`
are the rows inserted so far; the result is the rows to commit, or the error
of the first rejected insert. -/
def insertDevTypes (d : Store) : List (Int × String) → List (Int × String) →
    Except Err (List (Int × String))
  | pending, [] => .ok pending
  | pending, (t, n) :: rest =>
    match d.fault (.insertDevType t n) with
    | some e => .error e
    | none => insertDevTypes d (pending ++ [(t, n)]) rest

/-- Embedding of `createDevTypes`.  `order` is the order in which the
`range` over the map `devTypes` visits its entries.  The result is the store
afterwards and the returned error (`none` for `nil`). -/
def createDevTypes (order : List (Int × String)) (d : Store) : Store × Option Err :=
  match d.fault .selectDevTypesName with
  | some e => (d, some e)
  | none =>
    if hasDevTypesTable d then (d, none)
    else
      match d.fault .createDevTypesTable with
      | some e => (d, some e)
      | none =>
        let d1 : Store := { d with master := d.master ++ [devTypesMasterRow], devTypesRows := [] }
        match d.fault .beginx with
        | some e => (d1, some e)
        | none =>
          match insertDevTypes d [] order with
          | .error e => (d1, some e)
          | .ok pending =>
            match d.fault .commit with
            | some _ => (d1, none)
            | none => ({ d1 with devTypesRows := pending }, none)

/-! ## `findMeteringTables` (metering.go 70-95) -/

/-- The hard-coded tables of interest. -/
def meteringTableNames : List String :=
  ["metering_info", "metering_sys_info", "metering_zcache_info"]

/-- The `for _, name := range t` loop of `findMeteringTables`; `tables` is
the slice appended to so far. -/
def findMeteringTablesLoop (d : Store) : List String → List String → Except Err (List String)
  | tables, [] => .ok tables
  | tables, name :: rest =>
    match d.countRows name with
    | .error e => .error e
    | .ok count =>
      if count > 0 then findMeteringTablesLoop d (tables ++ [name]) rest
      else findMeteringTablesLoop d tables rest

/-- Embedding of `findMeteringTables` (the `err != nil` test before the loop
cannot fire: `err` is still `nil` there). -/
def findMeteringTables (d : Store) : Except Err (List String) :=
  findMeteringTablesLoop d [] meteringTableNames

/-! ## Query texts (dataio.go 44-165) -/

/-- Query text stored under key `metering_info_ms` of `sqlSelect`. -/
def sqlMeteringInfoMs : String :=
  String.join [
    "\n",
    "SELECT\n",
    "    \"io\" as measurement,\n",
    "    devices.dev_ext_name,\n",
    "    devices.dev_server_name,\n",
    "    devices.dev_target_name,\n",
    "    io_buckets.bucket_name,\n",
    "    dev_types.dev_name,\n",
    "    metering_info.interval,\n",
    "    ROUND(CAST(metering_info.num_ios AS real) / metering_info.interval, 3) AS iops,\n",
    "    ROUND(CAST(metering_info.bytes AS real) / metering_info.interval, 3) AS bps,\n",
    "    ROUND(CAST(metering_info.total_resp_tm_ms AS real) / metering_info.num_ios, 3) AS latency_ms,\n",
    "    metering_info.active_ios,\n",
    "    metering_info.io_errors,\n",
    "    metering_info.max_cmd,\n",
    "    metering_info.max_resp_tm_ms AS max_latency_ms,\n",
    "    metering_info.time\n",
    "FROM\n",
    "    metering_info\n",
    "    INNER JOIN\n",
    "        devices\n",
    "        ON (metering_info.dev_dbid = devices.dev_dbid)\n",
    "    INNER JOIN\n",
    "        io_buckets\n",
    "        ON (devices.dev_type = io_buckets.dev_type)\n",
    "        AND (metering_info.bucket = io_buckets.bucket)\n",
    "    INNER JOIN\n",
    "        dev_types\n",
    "        ON (devices.dev_type = dev_types.dev_type)\n",
    "        AND (dev_types.dev_type = io_buckets.dev_type)\n",
    "ORDER BY\n",
    "    metering_info.time\n"]

/-- Query text stored under key `metering_info_us` of `sqlSelect`. -/
def sqlMeteringInfoUs : String :=
  String.join [
    "\n",
    "SELECT\n",
    "    \"io\" as measurement,\n",
    "    devices.dev_ext_name,\n",
    "    devices.dev_server_name,\n",
    "    devices.dev_target_name,\n",
    "    io_buckets.bucket_name,\n",
    "    dev_types.dev_name,\n",
    "    metering_info.interval,\n",
    "    ROUND(CAST(metering_info.num_ios AS real) / metering_info.interval, 3) AS iops,\n",
    "    ROUND(CAST(metering_info.bytes AS real) / metering_info.interval, 3) AS bps,\n",
    "    ROUND(CAST((metering_info.total_resp_tm_us / 1000) AS real) / metering_info.num_ios, 3) AS latency_ms,\n",
    "    metering_info.active_ios,\n",
    "    metering_info.io_errors,\n",
    "    metering_info.max_cmd,\n",
    "    ROUND(CAST((metering_info.max_resp_tm_us / 1000) AS real), 3) AS max_latency_ms,\n",
    "    metering_info.time\n",
    "FROM\n",
    "    metering_info\n",
    "    INNER JOIN\n",
    "        devices\n",
    "        ON (metering_info.dev_dbid = devices.dev_dbid)\n",
    "    INNER JOIN\n",
    "        io_buckets\n",
    "        ON (devices.dev_type = io_buckets.dev_type)\n",
    "        AND (metering_info.bucket = io_buckets.bucket)\n",
    "    INNER JOIN\n",
    "        dev_types\n",
    "        ON (devices.dev_type = dev_types.dev_type)\n",
    "        AND (dev_types.dev_type = io_buckets.dev_type)\n",
    "ORDER BY\n",
    "    metering_info.time\n"]

/-- Query text stored under key `metering_sys_info` of `sqlSelect`. -/
def sqlMeteringSysInfo : String :=
  String.join [
    "\n",
    "SELECT\n",
    "    \"system\" as measurement,\n",
    "    dev_types.dev_name,\n",
    "    metering_sys_info.interval,\n",
    "    ROUND(CAST(100.0 * metering_sys_info.cpu_user AS real) / (metering_sys_info.cpu_user + metering_sys_info.cpu_system + metering_sys_info.cpu_iowait + metering_sys_info.cpu_idle), 3) AS cpu_user,\n",
    "    ROUND(CAST(100.0 * metering_sys_info.cpu_system AS real) / (metering_sys_info.cpu_user + metering_sys_info.cpu_system + metering_sys_info.cpu_iowait + metering_sys_info.cpu_idle), 3) AS cpu_system,\n",
    "    ROUND(CAST(100.0 * metering_sys_info.cpu_iowait AS real) / (metering_sys_info.cpu_user + metering_sys_info.cpu_system + metering_sys_info.cpu_iowait + metering_sys_info.cpu_idle), 3) AS cpu_iowait,\n",
    "    ROUND(CAST(100.0 * metering_sys_info.cpu_idle AS real) / (metering_sys_info.cpu_user + metering_sys_info.cpu_system + metering_sys_info.cpu_iowait + metering_sys_info.cpu_idle), 3) AS cpu_idle,\n",
    "    metering_sys_info.mem_alloc,\n",
    "    metering_sys_info.time\n",
    "FROM\n",
    "    metering_sys_info\n",
    "    INNER JOIN\n",
    "        devices\n",
    "        ON (metering_sys_info.dev_dbid = devices.dev_dbid)\n",
    "    INNER JOIN\n",
    "        dev_types\n",
    "        ON (devices.dev_type = dev_types.dev_type)\n",
    "WHERE\n",
    "    devices.dev_type = 5\n",
    "ORDER BY\n",
    "    metering_sys_info.time\n"]

/-- Query text stored under key `metering_zcache_info` of `sqlSelect`. -/
def sqlMeteringZcacheInfo : String :=
  String.join [
    "\n",
    "SELECT\n",
    "    \"zcache\" as measurement,\n",
    "    dev_types.dev_name,\n",
    "    devices.dev_ext_name,\n",
    "    metering_zcache_info.interval,\n",
    "    metering_zcache_info.data_dirty,\n",
    "    metering_zcache_info.meta_dirty,\n",
    "    metering_zcache_info.data_clean,\n",
    "    metering_zcache_info.meta_clean,\n",
    "    metering_zcache_info.data_cb_util,\n",
    "    metering_zcache_info.meta_cb_util,\n",
    "    metering_zcache_info.data_read_hit,\n",
    "    metering_zcache_info.meta_read_hit,\n",
    "    metering_zcache_info.data_write_hit,\n",
    "    metering_zcache_info.meta_write_hit,\n",
    "    metering_zcache_info.time\n",
    "FROM\n",
    "    metering_zcache_info\n",
    "    INNER JOIN\n",
    "       devices\n",
    "       ON (metering_zcache_info.dev_dbid = devices.dev_dbid)\n",
    "    INNER JOIN\n",
    "       dev_types\n",
    "       ON (devices.dev_type = dev_types.dev_type)\n",
    "WHERE\n",
    "    devices.dev_type = 7\n",
    "ORDER BY\n",
    "    metering_zcache_info.time\n"]

/-- The map `sqlSelect`: a missing key reads as the empty string. -/
def sqlSelect (queryName : String) : String :=
  if queryName = "metering_info_ms" then sqlMeteringInfoMs
  else if queryName = "metering_info_us" then sqlMeteringInfoUs
  else if queryName = "metering_sys_info" then sqlMeteringSysInfo
  else if queryName = "metering_zcache_info" then sqlMeteringZcacheInfo
  else ""

/-! ## Schema variant detection (metering.go 123-138) -/

/-- SQLite `LIKE` on characters: `%` matches any run of characters, `_` any
single character, every other character itself up to ASCII case. -/
def likeChars : List Char → List Char → Bool
  | [], s => s.isEmpty
  | c :: p, s =>
    if c = '%' then s.tails.any (likeChars p)
    else
      match s with
      | [] => false
      | x :: rest =>
        if c = '_' then likeChars p rest
        else (x.toLower == c.toLower) && likeChars p rest

/-- SQLite `text LIKE pattern`. -/
def sqlLike (text pattern : String) : Bool := likeChars pattern.data text.data

/-- The `WHERE` clause `name = 'metering_info' and sql like('%total_resp_tm_ms%')`
on one row of `sqlite_master`; `NULL LIKE ...` is not true. -/
def msColumnRow (r : MasterRow) : Bool :=
  decide (r.name = "metering_info") &&
    (match r.sql with
     | some s => sqlLike s "%total_resp_tm_ms%"
     | none => false)

/-- Outcome of `SELECT count(*) FROM sqlite_master where name = 'metering_info'
and sql like('%total_resp_tm_ms%')`: a row whose `sql` is `NULL` is not counted. -/
def countMsColumn (d : Store) : Except Err Int :=
  match d.fault .countMsColumn with
  | some e => .error e
  | none =>
    .ok ((d.master.filter (msColumnRow ·)).length : Int)

/-- The choice of `queryName` in `ingestMeteringTable`. -/
def selectQueryName (d : Store) (tableName : String) : Except Err String :=
  if tableName = "metering_info" then
    match countMsColumn d with
    | .error e => .error e
    | .ok matchCount =>
      if matchCount = 0 then .ok "metering_info_us" else .ok "metering_info_ms"
  else .ok tableName

/-! ## Row classification (metering.go 152-204) -/

/-- A point handed to `client.NewPoint`: measurement name, tags, fields, timestamp. -/
structure Point where
  name : String
  tags : GoMap String
  fields : GoMap Value
  time : Int
  deriving DecidableEq, Repr

/-- Library behaviour the source relies on: `fmt.Sprintf("%v", v)` and the
validation of `client.NewPoint` (the error it returns for a point, if any). -/
structure Lib where
  sprintv : Value → String
  newPointErr : Point → Option Err

/-- The sink behind `d.output.Write`: the error it returns for a batch,
given the batches written before it. -/
abbrev Sink := List (List Point) → List Point → Option Err

/-- The variables the classification loop of one row reads and writes:
`measurement` and `interval` live across rows, `timestamp`, `tags` and
`fields` are fresh in every row. -/
structure RowVars where
  measurement : String
  interval : Int
  timestamp : Int
  tags : GoMap String
  fields : GoMap Value
  deriving DecidableEq, Repr

/-- Body of `for n, v := range row` for one column.  The type switch on
`reflect.TypeOf(v).String()` is the match on the kind of `v`: `[]uint8` is
`Value.bytes`, every other non-nil kind takes the `default` case. -/
def classifyColumn (lib : Lib) (s : RowVars) (n : String) (v : Value) : Except Err RowVars :=
  match v with
  | .null => .ok s
  | .bytes b =>
    if n = "measurement" then .ok { s with measurement := b }
    else .ok { s with tags := s.tags.set n b }
  | v =>
    if n = "dev_server_name" ∨ n = "dev_target_name" then
      .ok { s with tags := s.tags.set n (lib.sprintv v) }
    else if n = "time" then
      match v with
      | .time t => .ok { s with timestamp := t }
      | _ => .error (.panic "interface conversion: not time.Time")
    else if n = "interval" then
      match v with
      | .int i => .ok { s with interval := i }
      | _ => .error (.panic "interface conversion: not int64")
    else .ok { s with fields := s.fields.set n v }

/-- The loop `for n, v := range row`. -/
def classifyLoop (lib : Lib) : RowVars → Row → Except Err RowVars
  | s, [] => .ok s
  | s, (n, v) :: rest =>
    match classifyColumn lib s n v with
    | .error e => .error e
    | .ok s1 => classifyLoop lib s1 rest

/-- Classification of one row: fresh `timestamp`, `fields` and `tags` (with
the `vpsa` tag), then the loop over the columns. -/
def classifyRow (lib : Lib) (vpsa measurement : String) (interval : Int) (row : Row) :
    Except Err RowVars :=
  classifyLoop lib ⟨measurement, interval, 0, [("vpsa", vpsa)], []⟩ row

/-- The point built from the classified row. -/
def RowVars.point (s : RowVars) : Point := ⟨s.measurement, s.tags, s.fields, s.timestamp⟩

/-- The `if len(fields) > 0` block: the batch after the row. -/
def addRowPoint (lib : Lib) (bp : List Point) (s : RowVars) : Except Err (List Point) :=
  if s.fields.length > 0 then
    match lib.newPointErr s.point with
    | some e => .error e
    | none => .ok (bp ++ [s.point])
  else .ok bp

/-! ## Batching (metering.go 97-238) -/

/-- The constant `commitSize`. -/
def commitSize : Nat := 10000

/-- Variables of the row loop of `ingestMeteringTable`; `flushed` records the
batches `d.output.Write` has accepted, in order. -/
structure LoopVars where
  count : Nat
  bp : List Point
  measurement : String
  interval : Int
  remainingChunks : Int
  flushed : List (List Point)
  deriving DecidableEq, Repr

/-- One iteration of `for rows.Next()`; `scan` is the outcome of `rows.MapScan`. -/
def ingestRow (lib : Lib) (output : Sink) (vpsa : String) (st : LoopVars)
    (scan : Except Err Row) : Except Err LoopVars :=
  let count := st.count + 1
  match scan with
  | .error e => .error e
  | .ok row =>
    match classifyRow lib vpsa st.measurement st.interval row with
    | .error e => .error e
    | .ok s =>
      match addRowPoint lib st.bp s with
      | .error e => .error e
      | .ok bp =>
        if count % commitSize = 0 then
          match output st.flushed bp with
          | some e => .error e
          | none =>
            .ok ⟨count, [], s.measurement, s.interval, st.remainingChunks - 1, st.flushed ++ [bp]⟩
        else .ok ⟨count, bp, s.measurement, s.interval, st.remainingChunks, st.flushed⟩

/-- What a run of `ingestMeteringTable` leaves: the batches the sink
accepted, in order, and the returned error (`none` for `nil`). -/
structure IngestResult where
  flushed : List (List Point)
  err : Option Err
  deriving DecidableEq, Repr

/-- The loop `for rows.Next()` followed by the final flush. -/
def ingestRows (lib : Lib) (output : Sink) (vpsa : String) :
    LoopVars → List (Except Err Row) → IngestResult
  | st, [] =>
    match output st.flushed st.bp with
    | some e => ⟨st.flushed, some e⟩
    | none => ⟨st.flushed ++ [st.bp], none⟩
  | st, scan :: rest =>
    match ingestRow lib output vpsa st scan with
    | .error e => ⟨st.flushed, some e⟩
    | .ok st1 => ingestRows lib output vpsa st1 rest

/-- The connections of one source file: `d.input` and `d.output`. -/
structure Dataio where
  input : Store
  output : Sink

/-- Embedding of `ingestMeteringTable`. -/
def ingestMeteringTable (lib : Lib) (d : Dataio) (tableName vpsa : String) : IngestResult :=
  match d.input.countRows tableName with
  | .error e => ⟨[], some e⟩
  | .ok tableCount =>
    match selectQueryName d.input tableName with
    | .error e => ⟨[], some e⟩
    | .ok queryName =>
      match d.input.queryx (sqlSelect queryName) with
      | .error e => ⟨[], some e⟩
      | .ok rows =>
        ingestRows lib d.output vpsa
          ⟨0, [], "", 0, Int.tdiv tableCount (commitSize : Int), []⟩ rows

/-! ## The file unit of `processMeteringFiles` (metering.go 279-317) -/

/-- What an inner unit reports: `tablec <- table` or `terrc <- err`. -/
inductive TableSignal where
  | done (table : String)
  | failed (e : Err)
  deriving DecidableEq, Repr

/-- What a file unit sends upward: `filec <- meteringFile` or `errc <- terr`. -/
inductive FileSignal where
  | done (meteringFile : String)
  | failed (e : Err)
  deriving DecidableEq, Repr

/-- Progress of a file unit: how many inner signals it has taken, which of
its sends the driver has received, and the send it is stuck at when the
driver is gone (channels are unbuffered). -/
structure UnitRun where
  received : Nat
  delivered : List FileSignal
  blockedOn : Option FileSignal
  deriving DecidableEq, Repr

/-- The loop `for i := 0; i < len(tables); i++` with its `select`, of a file unit,
followed by `filec <- meteringFile`.  `inner` are the signals of the inner
units in the order the `select` takes them; `driverAlive` says whether the
driver loop is still receiving.  The driver returns on the first error it
receives, so it is gone after it has taken an `errc` send. -/
def fileUnit (meteringFile : String) : Bool → UnitRun → List TableSignal → UnitRun
  | driverAlive, run, [] =>
    if driverAlive then { run with delivered := run.delivered ++ [.done meteringFile] }
    else { run with blockedOn := some (.done meteringFile) }
  | driverAlive, run, .done _ :: rest =>
    fileUnit meteringFile driverAlive { run with received := run.received + 1 } rest
  | driverAlive, run, .failed e :: rest =>
    if driverAlive then
      fileUnit meteringFile false
        { run with received := run.received + 1, delivered := run.delivered ++ [.failed e] } rest
    else { run with received := run.received + 1, blockedOn := some (.failed e) }

/-! ## Sample inputs -/

/-- Store with row counts 120, 0 and 45 for the three declared tables. -/
def storeCounts : Store :=
  { master := [], devTypesRows := [],
    countRows := fun name =>
      if name = "metering_info" then .ok 120
      else if name = "metering_sys_info" then .ok 0
      else if name = "metering_zcache_info" then .ok 45
      else .error (.error "no such table"),
    queryx := fun _ => .ok [],
    fault := fun _ => none }

/-- The counts of `storeCounts` as a total function. -/
def countsOf (name : String) : Int :=
  if name = "metering_info" then 120 else if name = "metering_sys_info" then 0 else 45

/-- Store whose `metering_info` definition has the column `total_resp_tmxms`:
it does not contain the name `total_resp_tm_ms`, yet matches the `LIKE` pattern. -/
def storeWildcard : Store :=
  { master := [⟨"table", "metering_info",
      some "CREATE TABLE metering_info (dev_dbid integer, total_resp_tmxms integer)"⟩],
    devTypesRows := [],
    countRows := fun _ => .ok 1,
    queryx := fun _ => .ok [],
    fault := fun _ => none }

/-- Store whose `metering_info` definition has the millisecond latency column. -/
def storeMs : Store :=
  { master := [⟨"table", "metering_info",
      some "CREATE TABLE metering_info (dev_dbid integer, total_resp_tm_ms integer)"⟩],
    devTypesRows := [],
    countRows := fun _ => .ok 1,
    queryx := fun _ => .ok [],
    fault := fun _ => none }

/-- Store in which the table `dev_types` exists and is empty, as a run of
`createDevTypes` whose first insert was rejected leaves it. -/
def storeEmptyDevTypes : Store :=
  { master := [devTypesMasterRow],
    devTypesRows := [],
    countRows := fun _ => .ok 0,
    queryx := fun _ => .ok [],
    fault := fun _ => none }

/-- Store without a `dev_types` table. -/
def storeFresh : Store :=
  { master := [],
    devTypesRows := [],
    countRows := fun _ => .ok 0,
    queryx := fun _ => .ok [],
    fault := fun _ => none }

/-- Library stand-in: `%v` of an integer is its decimal form; `NewPoint` accepts every point. -/
def libPlain : Lib :=
  { sprintv := fun v =>
      match v with
      | .int i => toString i
      | .bytes b => b
      | _ => "?",
    newPointErr := fun _ => none }

/-- Sink that accepts every batch. -/
def sinkOk : Sink := fun _ _ => none

/-- A row of the `metering_info` query shape: text columns, a timestamp, an interval
and one real-valued metric, with one null column. -/
def rowIo : Row :=
  [("measurement", .bytes "io"), ("dev_name", .bytes "VOLUME"), ("interval", .int 60),
   ("iops", .real 4613937818241073152), ("latency_ms", .null), ("time", .time 1530000000)]

/-- A row whose only non-null values are in `time`, `interval` and `measurement`. -/
def rowSpecialOnly : Row :=
  [("measurement", .bytes "io"), ("interval", .int 60), ("iops", .null), ("time", .time 1530000000)]

/-- The variables after classifying `rowIo` for source `vpsa1`. -/
def varsIo : RowVars :=
  ⟨"io", 60, 1530000000, [("vpsa", "vpsa1"), ("dev_name", "VOLUME")],
    [("iops", .real 4613937818241073152)]⟩

/-! ## Reference descriptions used in the statements -/

/-- The points of a row stream, row by row: the point of a row that yields at least one
field, nothing for a row that yields none; measurement name and interval are carried from
row to row as in the source, and the list ends at a row whose classification fails. -/
def rowPoints (lib : Lib) (vpsa : String) : String → Int → List Row → List (List Point)
  | _, _, [] => []
  | m, i, row :: rest =>
    match classifyRow lib vpsa m i row with
    | .error _ => []
    | .ok s =>
      (if s.fields.length > 0 then [s.point] else []) ::
        rowPoints lib vpsa s.measurement s.interval rest

/-- The classified points of a row stream, in row order. -/
def classifiedPoints (lib : Lib) (vpsa : String) (rows : List Row) : List Point :=
  (rowPoints lib vpsa "" 0 rows).flatten

/-- Whether the classification of a row completes (no failed type assertion). -/
def classifies (lib : Lib) (vpsa : String) (row : Row) : Bool :=
  match classifyRow lib vpsa "" 0 row with
  | .ok _ => true
  | .error _ => false

/-- Whether a row yields at least one field. -/
def yieldsField (lib : Lib) (vpsa : String) (row : Row) : Bool :=
  match classifyRow lib vpsa "" 0 row with
  | .ok s => decide (s.fields.length > 0)
  | .error _ => false

/-- Batching by row count alone: `c` rows have been read, `b` is the open batch, and the
remaining rows contribute the point lists `pr`; the result lists every batch written,
the final one included. -/
def batches (size : Nat) : Nat → List Point → List (List Point) → List (List Point)
  | _, b, [] => [b]
  | c, b, p :: ps =>
    if (c + 1) % size = 0 then (b ++ p) :: batches size (c + 1) [] ps
    else batches size (c + 1) (b ++ p) ps

/-- Measurement name and interval forgotten. -/
def RowVars.forget (s : RowVars) : RowVars := { s with measurement := "", interval := 0 }

/-- Connections of a file whose every query yields the rows `rows`, each scanned
successfully, and whose sink accepts every batch. -/
def dataioRows (rows : List Row) : Dataio :=
  { input :=
      { master := [],
        devTypesRows := [],
        countRows := fun _ => .ok (rows.length : Int),
        queryx := fun _ => .ok (rows.map .ok),
        fault := fun _ => none },
    output := sinkOk }

/-- Three rows, the middle one yielding no field. -/
def rowsSmall : List Row := [rowIo, rowSpecialOnly, rowIo]

/-- One row that yields no field followed by 9,999 rows that yield one. -/
def rowsDropFirst : List Row := rowSpecialOnly :: List.replicate 9999 rowIo

/-- A row whose `measurement` column holds an integer. -/
def rowIntMeasurement : Row := [("measurement", .int 7), ("iops", .real 0)]

/-- The variables after classifying `rowIntMeasurement` for source `vpsa1`. -/
def varsIntMeasurement : RowVars :=
  ⟨"", 0, 0, [("vpsa", "vpsa1")], [("measurement", .int 7), ("iops", .real 0)]⟩

/-- Library stand-in whose `NewPoint` rejects a point with an infinite real field, as the
time-series client does (`9218868437227405312` is the bit pattern of `+Inf`). -/
def libStrict : Lib :=
  { sprintv := libPlain.sprintv,
    newPointErr := fun p =>
      if p.fields.any (fun f => f.2 = Value.real 9218868437227405312) then
        some (.error "+/-Inf is an unsupported value for field")
      else none }

/-- A row that yields one field, whose value is the real `+Inf`. -/
def rowInf : Row :=
  [("measurement", .bytes "io"), ("iops", .real 9218868437227405312),
   ("time", .time 1530000000)]

end ZadaraMetering

namespace ZadaraMetering

/-! ## Path handling -/

theorem splitChars_ne_nil (sep : Char) (cs : List Char) : splitChars sep cs ≠ [] := by
  induction cs with
  | nil => simp [splitChars]
  | cons c cs ih =>
    unfold splitChars
    split
    · simp
    · split <;> simp

/-- The guard `len(parts) < 1` of `getVPSANameFromPath` never fires. -/
theorem getVPSANameFromPath_guard_dead (path : String) :
    ¬ (stringsSplit path pathSeparator).length < 1 := by
  have h := splitChars_ne_nil pathSeparator path.data
  simp only [stringsSplit, List.length_map, Nat.lt_one_iff]
  intro h0
  exact h (List.length_eq_zero.mp h0)

theorem splitChars_no_sep (sep : Char) (cs : List Char) (h : sep ∉ cs) :
    splitChars sep cs = [cs] := by
  induction cs with
  | nil => rfl
  | cons c cs ih =>
    have hc : c ≠ sep := fun e => h (by simp [e])
    have hcs : sep ∉ cs := fun e => h (by simp [e])
    simp [splitChars, hc, ih hcs]

/-- A path without separator makes `getVPSANameFromPath` index its one-element slice
at -1. -/
theorem getVPSANameFromPath_no_separator (path : String) (h : pathSeparator ∉ path.data) :
    getVPSANameFromPath path = .error (.panic "index out of range") := by
  simp [getVPSANameFromPath, stringsSplit, splitChars_no_sep pathSeparator path.data h,
    indexParts]

/-- C5: on the path `metering.db`, which has no separator, `getVPSANameFromPath`
panics with an index out of range instead of returning an error, while a path with
two components yields the second-to-last one. -/
theorem getVPSANameFromPath_shallow_panics :
    getVPSANameFromPath "metering.db" = .error (.panic "index out of range") ∧
    getVPSANameFromPath "/data/vpsa1/metering.db" = .ok "vpsa1" := by
  constructor <;> decide

/-! ## Table selection -/

theorem findMeteringTablesLoop_eq (d : Store) (c : String → Int) (names : List String) :
    ∀ tables : List String, (∀ name ∈ names, d.countRows name = .ok (c name)) →
      findMeteringTablesLoop d tables names =
        .ok (tables ++ names.filter (fun name => decide (c name > 0))) := by
  induction names with
  | nil => intro tables _; simp [findMeteringTablesLoop]
  | cons name rest ih =>
    intro tables h
    have hn : d.countRows name = .ok (c name) := h name (by simp)
    have hr : ∀ n ∈ rest, d.countRows n = .ok (c n) := fun n hn => h n (by simp [hn])
    unfold findMeteringTablesLoop
    rw [hn]
    by_cases hc : c name > 0
    · simp [hc, ih _ hr]
    · simp [hc, ih _ hr]

/-- C6: when the three row-count queries succeed with counts `c`, `findMeteringTables`
returns the declared table names whose count is positive, in declared order, so a
declared name is in the result iff its count is positive. -/
theorem findMeteringTables_spec (d : Store) (c : String → Int)
    (h : ∀ name ∈ meteringTableNames, d.countRows name = .ok (c name)) :
    findMeteringTables d = .ok (meteringTableNames.filter (fun name => decide (c name > 0))) ∧
    ∀ tables, findMeteringTables d = .ok tables →
      (tables.Sublist meteringTableNames ∧ ∀ name ∈ meteringTableNames, (name ∈ tables ↔ c name > 0)) := by
  have h1 : findMeteringTables d =
      .ok (meteringTableNames.filter (fun name => decide (c name > 0))) := by
    unfold findMeteringTables
    rw [findMeteringTablesLoop_eq d c meteringTableNames [] h]
    simp
  refine ⟨h1, ?_⟩
  intro tables ht
  rw [h1] at ht
  injection ht with ht
  subst ht
  refine ⟨List.filter_sublist _, ?_⟩
  intro name hn
  simp [List.mem_filter, hn]

theorem findMeteringTables_spec_witness :
    findMeteringTables storeCounts = .ok ["metering_info", "metering_zcache_info"] := by
  have h := (findMeteringTables_spec storeCounts countsOf (by decide)).1
  rw [h]
  decide


/-! ## Schema variant detection -/

theorem likeChars_msName (b : List Char) :
    likeChars ("total_resp_tm_ms%".data) ("total_resp_tm_ms".data ++ b) = true := by
  simp [likeChars]

theorem sqlLike_of_contains (s : String) (h : "total_resp_tm_ms".data <:+: s.data) :
    sqlLike s "%total_resp_tm_ms%" = true := by
  obtain ⟨a, b, hab⟩ := h
  have hp : ("%total_resp_tm_ms%" : String).data = '%' :: "total_resp_tm_ms%".data := by decide
  unfold sqlLike
  rw [hp]
  simp only [likeChars, if_true, List.any_eq_true]
  refine ⟨"total_resp_tm_ms".data ++ b, ?_, likeChars_msName b⟩
  rw [List.mem_tails, ← hab]
  exact ⟨a, by simp⟩

theorem countMsColumn_eq (d : Store) (hq : d.fault .countMsColumn = none) :
    countMsColumn d = .ok ((d.master.filter (msColumnRow ·)).length : Int) := by
  simp [countMsColumn, hq]

theorem selectQueryName_info (d : Store) (hq : d.fault .countMsColumn = none) :
    selectQueryName d "metering_info" =
      .ok (if d.master.any (msColumnRow ·) then "metering_info_ms" else "metering_info_us") := by
  unfold selectQueryName
  rw [if_pos rfl, countMsColumn_eq d hq]
  by_cases h : d.master.any (msColumnRow ·) = true
  · have hne : (d.master.filter (msColumnRow ·)) ≠ [] := by
      intro h0
      rw [List.any_eq_true] at h
      obtain ⟨r, hr, hm⟩ := h
      have : r ∈ d.master.filter (msColumnRow ·) := List.mem_filter.mpr ⟨hr, hm⟩
      rw [h0] at this
      exact absurd this (List.not_mem_nil r)
    have hlen : ((d.master.filter (msColumnRow ·)).length : Int) ≠ 0 := by
      intro h0
      exact hne (List.length_eq_zero.mp (by exact_mod_cast h0))
    simp [h, hlen]
  · have hnil : d.master.filter (msColumnRow ·) = [] := by
      rw [List.filter_eq_nil_iff]
      intro r hr hm
      exact h (List.any_eq_true.mpr ⟨r, hr, hm⟩)
    simp [h, hnil]

theorem msColumnRow_iff (r : MasterRow) :
    msColumnRow r = true ↔
      r.name = "metering_info" ∧ ∃ s, r.sql = some s ∧ sqlLike s "%total_resp_tm_ms%" = true := by
  unfold msColumnRow
  cases hs : r.sql with
  | none => simp
  | some s => simp

/-- C9 (amended): when the schema query succeeds, the query chosen for `metering_info` is
the millisecond variant iff a stored definition of `metering_info` matches the `LIKE`
pattern `%total_resp_tm_ms%`, which every definition containing `total_resp_tm_ms` does,
and the microsecond variant otherwise; for every other table the query is named after
the table itself. -/
theorem selectQueryName_spec (d : Store) (hq : d.fault .countMsColumn = none) :
    (selectQueryName d "metering_info" = .ok "metering_info_ms" ↔
      ∃ r ∈ d.master, r.name = "metering_info" ∧
        ∃ s, r.sql = some s ∧ sqlLike s "%total_resp_tm_ms%" = true) ∧
    (selectQueryName d "metering_info" ≠ .ok "metering_info_ms" →
      selectQueryName d "metering_info" = .ok "metering_info_us") ∧
    (∀ r ∈ d.master, r.name = "metering_info" → ∀ s, r.sql = some s →
      "total_resp_tm_ms".data <:+: s.data →
      selectQueryName d "metering_info" = .ok "metering_info_ms") ∧
    (∀ tableName, tableName ≠ "metering_info" →
      selectQueryName d tableName = .ok tableName) := by
  have hsel := selectQueryName_info d hq
  have hiff : selectQueryName d "metering_info" = .ok "metering_info_ms" ↔
      ∃ r ∈ d.master, r.name = "metering_info" ∧
        ∃ s, r.sql = some s ∧ sqlLike s "%total_resp_tm_ms%" = true := by
    rw [hsel]
    by_cases h : d.master.any (msColumnRow ·) = true
    · simp only [h, if_true, true_iff]
      obtain ⟨r, hr, hm⟩ := List.any_eq_true.mp h
      exact ⟨r, hr, (msColumnRow_iff r).mp hm⟩
    · simp only [h]
      constructor
      · intro hc
        exact absurd hc (by decide)
      · rintro ⟨r, hr, hm⟩
        exact absurd (List.any_eq_true.mpr ⟨r, hr, (msColumnRow_iff r).mpr hm⟩) h
  refine ⟨hiff, ?_, ?_, ?_⟩
  · intro hne
    rw [hsel] at hne ⊢
    by_cases h : d.master.any (msColumnRow ·) = true
    · simp [h] at hne
    · simp [h]
  · intro r hr hn s hs hc
    exact hiff.mpr ⟨r, hr, hn, s, hs, sqlLike_of_contains s hc⟩
  · intro tableName hne
    simp [selectQueryName, hne]

theorem selectQueryName_spec_witness :
    selectQueryName storeMs "metering_info" = .ok "metering_info_ms" ∧
    selectQueryName storeMs "metering_sys_info" = .ok "metering_sys_info" :=
  ⟨(selectQueryName_spec storeMs rfl).2.2.1 _ (List.mem_singleton.mpr rfl) rfl _ rfl (by decide),
   (selectQueryName_spec storeMs rfl).2.2.2 _ (by decide)⟩

set_option maxRecDepth 100000 in
/-- C9 (as stated) fails: the stored definition of `storeWildcard` does not contain
`total_resp_tm_ms`, yet the millisecond variant is chosen. -/
theorem selectQueryName_wildcard_counterexample :
    storeWildcard.master = [⟨"table", "metering_info",
      some "CREATE TABLE metering_info (dev_dbid integer, total_resp_tmxms integer)"⟩] ∧
    ¬ ("total_resp_tm_ms".data <:+:
      "CREATE TABLE metering_info (dev_dbid integer, total_resp_tmxms integer)".data) ∧
    selectQueryName storeWildcard "metering_info" = .ok "metering_info_ms" := by
  refine ⟨rfl, ?_, ?_⟩ <;> decide

/-! ## Reference seeding -/

theorem insertDevTypes_ok (d : Store) (hf : ∀ st, d.fault st = none) (order : List (Int × String)) :
    ∀ pending, insertDevTypes d pending order = .ok (pending ++ order) := by
  induction order with
  | nil => intro pending; simp [insertDevTypes]
  | cons p rest ih =>
    intro pending
    obtain ⟨t, n⟩ := p
    simp [insertDevTypes, hf, ih]

theorem hasDevTypesTable_append (d : Store) (rows : List (Int × String)) :
    hasDevTypesTable { d with master := d.master ++ [devTypesMasterRow], devTypesRows := rows }
      = true := by
  simp [hasDevTypesTable, devTypesMasterRow]

theorem createDevTypes_present (order : List (Int × String)) (d : Store)
    (hf : ∀ st, d.fault st = none) (h : hasDevTypesTable d = true) :
    createDevTypes order d = (d, none) := by
  simp [createDevTypes, hf, h]

theorem createDevTypes_absent (order : List (Int × String)) (d : Store)
    (hf : ∀ st, d.fault st = none) (h : hasDevTypesTable d = false) :
    createDevTypes order d =
      ({ d with master := d.master ++ [devTypesMasterRow], devTypesRows := order }, none) := by
  simp [createDevTypes, hf, h, insertDevTypes_ok d hf]

/-- C10 (amended): with all store operations succeeding, a run of `createDevTypes` on a
store that has the table `dev_types` changes nothing, and two runs in succession on a
store that lacks it leave the table present with exactly the 14 entries of `devTypes`. -/
theorem createDevTypes_twice (order : List (Int × String)) (d : Store)
    (ho : order.Perm devTypes) (hf : ∀ st, d.fault st = none) :
    (hasDevTypesTable d = true → createDevTypes order d = (d, none)) ∧
    (hasDevTypesTable d = false →
      (createDevTypes order d).2 = none ∧
      (createDevTypes order (createDevTypes order d).1).2 = none ∧
      (createDevTypes order (createDevTypes order d).1).1 = (createDevTypes order d).1 ∧
      hasDevTypesTable (createDevTypes order (createDevTypes order d).1).1 = true ∧
      (createDevTypes order (createDevTypes order d).1).1.devTypesRows.Perm devTypes ∧
      (createDevTypes order (createDevTypes order d).1).1.devTypesRows.length = 14) := by
  refine ⟨createDevTypes_present order d hf, ?_⟩
  intro h
  have h1 := createDevTypes_absent order d hf h
  have hp : hasDevTypesTable
      { d with master := d.master ++ [devTypesMasterRow], devTypesRows := order } = true :=
    hasDevTypesTable_append d order
  have h2 := createDevTypes_present order
    { d with master := d.master ++ [devTypesMasterRow], devTypesRows := order } hf hp
  rw [h1]
  simp only [h2]
  refine ⟨trivial, trivial, trivial, hp, ho, ?_⟩
  rw [ho.length_eq]
  rfl

theorem createDevTypes_twice_witness :
    (createDevTypes devTypes (createDevTypes devTypes storeFresh).1).1.devTypesRows.length = 14 :=
  ((createDevTypes_twice devTypes storeFresh (List.Perm.refl _) (fun _ => rfl)).2 rfl).2.2.2.2.2

/-- C10 (as stated) fails for a store that already has an empty `dev_types` table: two
runs succeed and leave it with no entry, not 14. -/
theorem createDevTypes_existing_counterexample :
    (∀ st, storeEmptyDevTypes.fault st = none) ∧
    (createDevTypes devTypes storeEmptyDevTypes).2 = none ∧
    (createDevTypes devTypes (createDevTypes devTypes storeEmptyDevTypes).1).2 = none ∧
    (createDevTypes devTypes (createDevTypes devTypes storeEmptyDevTypes).1).1.devTypesRows = [] := by
  refine ⟨fun _ => rfl, ?_, ?_, ?_⟩ <;> decide

/-! ## The file unit -/

/-- C4: with two tables whose first signal taken is an error and second a completion, the
file unit delivers the error and then, instead of ending its wait, takes the second signal
and stays blocked at the send of its completion signal. -/
theorem fileUnit_keeps_waiting :
    fileUnit "f.db" true ⟨0, [], none⟩ [.failed (.error "e1"), .done "t2"] =
      ⟨2, [.failed (.error "e1")], some (.done "f.db")⟩ ∧
    fileUnit "f.db" true ⟨0, [], none⟩ [.failed (.error "e1"), .failed (.error "e2")] =
      ⟨2, [.failed (.error "e1")], some (.failed (.error "e2"))⟩ := by
  constructor <;> decide

/-- When no inner unit fails and the driver is receiving, the file unit takes every inner
signal and delivers its completion signal. -/
theorem fileUnit_all_done (meteringFile : String) (inner : List TableSignal) :
    ∀ run : UnitRun, (∀ s ∈ inner, ∃ table, s = .done table) →
      fileUnit meteringFile true run inner =
        { received := run.received + inner.length,
          delivered := run.delivered ++ [.done meteringFile],
          blockedOn := run.blockedOn } := by
  induction inner with
  | nil => intro run _; simp [fileUnit]
  | cons s rest ih =>
    intro run h
    obtain ⟨table, hs⟩ := h s (by simp)
    subst hs
    simp only [fileUnit]
    rw [ih _ (fun s hs => h s (by simp [hs]))]
    simp [Nat.add_assoc, Nat.add_comm 1]

/-! ## Row classification -/

theorem GoMap.mem_keys_set {α : Type} (m : GoMap α) (n : String) (v : α) (k : String)
    (h : k ∈ (m.set n v).keys) : k ∈ m.keys ∨ k = n := by
  simp only [GoMap.keys, GoMap.set, List.map_append, List.mem_append, List.mem_map,
    List.mem_filter] at h ⊢
  rcases h with ⟨p, ⟨hp, _⟩, hk⟩ | ⟨p, hp, hk⟩
  · exact Or.inl ⟨p, hp, hk⟩
  · simp at hp
    subst hp
    exact Or.inr hk.symm

/-- Where a field key comes from after one column. -/
theorem classifyColumn_fields_keys (lib : Lib) (s s1 : RowVars) (n : String) (v : Value)
    (h : classifyColumn lib s n v = .ok s1) (k : String) (hk : k ∈ s1.fields.keys) :
    k ∈ s.fields.keys ∨ (k = n ∧ v ≠ .null ∧ ∀ b, v ≠ .bytes b) := by
  cases v <;> simp only [classifyColumn] at h
  case null => injection h with h; subst h; exact Or.inl hk
  case bytes b =>
    split at h <;> (injection h with h; subst h; exact Or.inl hk)
  all_goals
    split at h
    · injection h with h; subst h; exact Or.inl hk
    · split at h
      · first
          | (injection h with h; subst h; exact Or.inl hk)
          | exact absurd h (by simp)
      · split at h
        · first
            | (injection h with h; subst h; exact Or.inl hk)
            | exact absurd h (by simp)
        · injection h with h
          subst h
          rcases GoMap.mem_keys_set _ _ _ _ hk with h1 | h1
          · exact Or.inl h1
          · exact Or.inr ⟨h1, by simp, by simp⟩

/-- Where a tag key comes from after one column. -/
theorem classifyColumn_tags_keys (lib : Lib) (s s1 : RowVars) (n : String) (v : Value)
    (h : classifyColumn lib s n v = .ok s1) (k : String) (hk : k ∈ s1.tags.keys) :
    k ∈ s.tags.keys ∨ (k = n ∧ v ≠ .null ∧ n ≠ "measurement") := by
  cases v <;> simp only [classifyColumn] at h
  case null => injection h with h; subst h; exact Or.inl hk
  case bytes b =>
    split at h
    · injection h with h; subst h; exact Or.inl hk
    · rename_i hne
      injection h with h
      subst h
      rcases GoMap.mem_keys_set _ _ _ _ hk with h1 | h1
      · exact Or.inl h1
      · exact Or.inr ⟨h1, by simp, hne⟩
  all_goals
    split at h
    · rename_i hsp
      injection h with h
      subst h
      rcases GoMap.mem_keys_set _ _ _ _ hk with h1 | h1
      · exact Or.inl h1
      · refine Or.inr ⟨h1, by simp, ?_⟩
        rcases hsp with hsp | hsp <;> (rw [hsp]; decide)
    · split at h
      · first
          | (injection h with h; subst h; exact Or.inl hk)
          | exact absurd h (by simp)
      · split at h
        · first
            | (injection h with h; subst h; exact Or.inl hk)
            | exact absurd h (by simp)
        · injection h with h
          subst h
          exact Or.inl hk

/-- What one column does to the measurement name. -/
theorem classifyColumn_measurement (lib : Lib) (s s1 : RowVars) (n : String) (v : Value)
    (h : classifyColumn lib s n v = .ok s1) :
    (n = "measurement" ∧ v = .bytes s1.measurement) ∨
      (s1.measurement = s.measurement ∧ ¬ (n = "measurement" ∧ ∃ b, v = .bytes b)) := by
  cases v <;> simp only [classifyColumn] at h
  case null => injection h with h; subst h; exact Or.inr ⟨rfl, by simp⟩
  case bytes b =>
    split at h
    · rename_i hn
      injection h with h; subst h; exact Or.inl ⟨hn, rfl⟩
    · rename_i hne
      injection h with h; subst h; exact Or.inr ⟨rfl, by simp [hne]⟩
  all_goals
    split at h
    · injection h with h; subst h; exact Or.inr ⟨rfl, by simp⟩
    · split at h
      · first
          | (injection h with h; subst h; exact Or.inr ⟨rfl, by simp⟩)
          | exact absurd h (by simp)
      · split at h
        · first
            | (injection h with h; subst h; exact Or.inr ⟨rfl, by simp⟩)
            | exact absurd h (by simp)
        · injection h with h; subst h; exact Or.inr ⟨rfl, by simp⟩

theorem classifyLoop_cons_ok (lib : Lib) (s s2 : RowVars) (n : String) (v : Value) (rest : Row)
    (h : classifyLoop lib s ((n, v) :: rest) = .ok s2) :
    ∃ s1, classifyColumn lib s n v = .ok s1 ∧ classifyLoop lib s1 rest = .ok s2 := by
  simp only [classifyLoop] at h
  split at h
  · exact absurd h (by simp)
  · rename_i s1 h1
    exact ⟨s1, h1, h⟩

/-- Every field key of a classified row is the name of a column holding a value that is
neither null nor text. -/
theorem classifyLoop_fields_keys (lib : Lib) (row : Row) :
    ∀ s s2 : RowVars, classifyLoop lib s row = .ok s2 → ∀ k ∈ s2.fields.keys,
      k ∈ s.fields.keys ∨ ∃ v, (k, v) ∈ row ∧ v ≠ .null ∧ ∀ b, v ≠ .bytes b := by
  induction row with
  | nil =>
    intro s s2 h k hk
    simp only [classifyLoop] at h
    injection h with h; subst h; exact Or.inl hk
  | cons c rest ih =>
    intro s s2 h k hk
    obtain ⟨n, v⟩ := c
    obtain ⟨s1, h1, h2⟩ := classifyLoop_cons_ok lib s s2 n v rest h
    rcases ih s1 s2 h2 k hk with h3 | ⟨w, hw, hw2⟩
    · rcases classifyColumn_fields_keys lib s s1 n v h1 k h3 with h4 | ⟨h4, h5, h6⟩
      · exact Or.inl h4
      · exact Or.inr ⟨v, by simp [h4], h5, h6⟩
    · exact Or.inr ⟨w, by simp [hw], hw2⟩

/-- Every tag key of a classified row is the name of a column, other than `measurement`,
holding a non-null value. -/
theorem classifyLoop_tags_keys (lib : Lib) (row : Row) :
    ∀ s s2 : RowVars, classifyLoop lib s row = .ok s2 → ∀ k ∈ s2.tags.keys,
      k ∈ s.tags.keys ∨ (k ≠ "measurement" ∧ ∃ v, (k, v) ∈ row ∧ v ≠ .null) := by
  induction row with
  | nil =>
    intro s s2 h k hk
    simp only [classifyLoop] at h
    injection h with h; subst h; exact Or.inl hk
  | cons c rest ih =>
    intro s s2 h k hk
    obtain ⟨n, v⟩ := c
    obtain ⟨s1, h1, h2⟩ := classifyLoop_cons_ok lib s s2 n v rest h
    rcases ih s1 s2 h2 k hk with h3 | ⟨hne, w, hw, hw2⟩
    · rcases classifyColumn_tags_keys lib s s1 n v h1 k h3 with h4 | ⟨h4, h5, h6⟩
      · exact Or.inl h4
      · exact Or.inr ⟨by rw [h4]; exact h6, v, by simp [h4], h5⟩
    · exact Or.inr ⟨hne, w, by simp [hw], hw2⟩

/-- The measurement name after a row is the text of a `measurement` column when the row
has one, and the name carried in otherwise. -/
theorem classifyLoop_measurement (lib : Lib) (row : Row) :
    ∀ s s2 : RowVars, classifyLoop lib s row = .ok s2 →
      (("measurement", Value.bytes s2.measurement) ∈ row) ∨
        (s2.measurement = s.measurement ∧ ∀ b, ("measurement", Value.bytes b) ∉ row) := by
  induction row with
  | nil =>
    intro s s2 h
    simp only [classifyLoop] at h
    injection h with h; subst h; exact Or.inr ⟨rfl, by simp⟩
  | cons c rest ih =>
    intro s s2 h
    obtain ⟨n, v⟩ := c
    obtain ⟨s1, h1, h2⟩ := classifyLoop_cons_ok lib s s2 n v rest h
    rcases ih s1 s2 h2 with h3 | ⟨h3, h4⟩
    · exact Or.inl (by simp [h3])
    · rcases classifyColumn_measurement lib s s1 n v h1 with ⟨h5, h6⟩ | ⟨h5, h6⟩
      · left
        rw [h3, h5, h6]
        simp
      · right
        refine ⟨by rw [h3, h5], ?_⟩
        intro b hb
        rcases List.mem_cons.mp hb with hb | hb
        · injection hb with hb1 hb2
          exact h6 ⟨hb1.symm, b, hb2.symm⟩
        · exact h4 b hb

/-- In a row with one entry per column name, a column determines its value. -/
theorem row_value_unique (row : Row) (hnd : (row.map Prod.fst).Nodup) (n : String) (v w : Value)
    (hv : (n, v) ∈ row) (hw : (n, w) ∈ row) : v = w := by
  induction row with
  | nil => simp at hv
  | cons c rest ih =>
    simp only [List.map_cons, List.nodup_cons, List.mem_map, not_exists, not_and] at hnd
    rcases List.mem_cons.mp hv with hv | hv <;> rcases List.mem_cons.mp hw with hw | hw
    · rw [← hv] at hw
      injection hw with _ h2
      exact h2.symm
    · exact absurd (by rw [← hv]) (hnd.1 (n, w) hw)
    · exact absurd (by rw [← hw]) (hnd.1 (n, v) hv)
    · exact ih hnd.2 hv hw

theorem GoMap.mem_keys_set_of_mem {α : Type} (m : GoMap α) (n : String) (v : α) (k : String)
    (h : k ∈ m.keys) : k ∈ (m.set n v).keys := by
  simp only [GoMap.keys, GoMap.set, List.map_append, List.mem_append, List.mem_map,
    List.mem_filter] at h ⊢
  obtain ⟨p, hp, hk⟩ := h
  by_cases hkn : k = n
  · exact Or.inr ⟨(n, v), by simp, hkn.symm⟩
  · exact Or.inl ⟨p, ⟨hp, by simp [hk, hkn]⟩, hk⟩

theorem GoMap.mem_keys_set_self {α : Type} (m : GoMap α) (n : String) (v : α) :
    n ∈ (m.set n v).keys := by
  simp [GoMap.keys, GoMap.set]

/-- A column never removes a field key; a value that is neither null nor text, in a column
that is not one of the four special names, adds its column name as a field key. -/
theorem classifyColumn_fields_grow (lib : Lib) (s s1 : RowVars) (n : String) (v : Value)
    (h : classifyColumn lib s n v = .ok s1) :
    (∀ k ∈ s.fields.keys, k ∈ s1.fields.keys) ∧
    (v ≠ .null → (∀ b, v ≠ .bytes b) → n ≠ "dev_server_name" → n ≠ "dev_target_name" →
      n ≠ "time" → n ≠ "interval" → n ∈ s1.fields.keys) := by
  cases v <;> simp only [classifyColumn] at h
  case null => injection h with h; subst h; exact ⟨fun k hk => hk, fun h0 => absurd rfl h0⟩
  case bytes b =>
    split at h <;>
      (injection h with h; subst h; exact ⟨fun k hk => hk, fun _ hb => absurd rfl (hb b)⟩)
  all_goals
    split at h
    · rename_i hsp
      injection h with h; subst h
      exact ⟨fun k hk => hk, fun _ _ h1 h2 _ _ => absurd hsp (not_or.mpr ⟨h1, h2⟩)⟩
    · split at h
      · rename_i ht
        first
          | (injection h with h; subst h
             exact ⟨fun k hk => hk, fun _ _ _ _ h3 _ => absurd ht h3⟩)
          | exact absurd h (by simp)
      · split at h
        · rename_i hi
          first
            | (injection h with h; subst h
               exact ⟨fun k hk => hk, fun _ _ _ _ _ h4 => absurd hi h4⟩)
            | exact absurd h (by simp)
        · injection h with h
          subst h
          exact ⟨fun k hk => GoMap.mem_keys_set_of_mem _ _ _ _ hk,
            fun _ _ _ _ _ _ => GoMap.mem_keys_set_self _ _ _⟩

theorem classifyLoop_fields_grow (lib : Lib) (row : Row) :
    ∀ s s2 : RowVars, classifyLoop lib s row = .ok s2 →
      (∀ k ∈ s.fields.keys, k ∈ s2.fields.keys) ∧
      (∀ n v, (n, v) ∈ row → v ≠ .null → (∀ b, v ≠ .bytes b) → n ≠ "dev_server_name" →
        n ≠ "dev_target_name" → n ≠ "time" → n ≠ "interval" → n ∈ s2.fields.keys) := by
  induction row with
  | nil =>
    intro s s2 h
    simp only [classifyLoop] at h
    injection h with h; subst h
    exact ⟨fun k hk => hk, fun n v hv => absurd hv (List.not_mem_nil _)⟩
  | cons c rest ih =>
    intro s s2 h
    obtain ⟨n0, v0⟩ := c
    obtain ⟨s1, h1, h2⟩ := classifyLoop_cons_ok lib s s2 n0 v0 rest h
    obtain ⟨g1, g2⟩ := classifyColumn_fields_grow lib s s1 n0 v0 h1
    obtain ⟨i1, i2⟩ := ih s1 s2 h2
    refine ⟨fun k hk => i1 k (g1 k hk), ?_⟩
    intro n v hv a1 a2 a3 a4 a5 a6
    rcases List.mem_cons.mp hv with hv | hv
    · injection hv with e1 e2
      subst e1; subst e2
      exact i1 _ (g2 a1 a2 a3 a4 a5 a6)
    · exact i2 n v hv a1 a2 a3 a4 a5 a6

theorem GoMap.mem_set_of_ne {α : Type} (m : GoMap α) (n : String) (v : α) (k : String) (x : α)
    (h : (k, x) ∈ m) (hne : k ≠ n) : (k, x) ∈ m.set n v := by
  simp only [GoMap.set, List.mem_append, List.mem_filter]
  exact Or.inl ⟨h, by simp [hne]⟩

theorem GoMap.mem_set_self {α : Type} (m : GoMap α) (n : String) (v : α) :
    (n, v) ∈ m.set n v := by
  simp [GoMap.set]

/-- A column leaves the field entries of the other names in place, and a value that is
neither null nor text, in a column that is not one of the four special names, is stored
under its column name. -/
theorem classifyColumn_fields_store (lib : Lib) (s s1 : RowVars) (n : String) (v : Value)
    (h : classifyColumn lib s n v = .ok s1) :
    (∀ k x, (k, x) ∈ s.fields → k ≠ n → (k, x) ∈ s1.fields) ∧
    (v ≠ .null → (∀ b, v ≠ .bytes b) → n ≠ "dev_server_name" → n ≠ "dev_target_name" →
      n ≠ "time" → n ≠ "interval" → (n, v) ∈ s1.fields) := by
  cases v <;> simp only [classifyColumn] at h
  case null =>
    injection h with h; subst h; exact ⟨fun k x hk _ => hk, fun h0 => absurd rfl h0⟩
  case bytes b =>
    split at h <;>
      (injection h with h; subst h; exact ⟨fun k x hk _ => hk, fun _ hb => absurd rfl (hb b)⟩)
  all_goals
    split at h
    · rename_i hsp
      injection h with h; subst h
      exact ⟨fun k x hk _ => hk, fun _ _ h1 h2 _ _ => absurd hsp (not_or.mpr ⟨h1, h2⟩)⟩
    · split at h
      · rename_i ht
        first
          | (injection h with h; subst h
             exact ⟨fun k x hk _ => hk, fun _ _ _ _ h3 _ => absurd ht h3⟩)
          | exact absurd h (by simp)
      · split at h
        · rename_i hi
          first
            | (injection h with h; subst h
               exact ⟨fun k x hk _ => hk, fun _ _ _ _ _ h4 => absurd hi h4⟩)
            | exact absurd h (by simp)
        · injection h with h
          subst h
          exact ⟨fun k x hk hne => GoMap.mem_set_of_ne _ _ _ _ _ hk hne,
            fun _ _ _ _ _ _ => GoMap.mem_set_self _ _ _⟩

/-- In a row with one entry per column name, a value that is neither null nor text, in a
column that is not one of the four special names, is the field stored under that name. -/
theorem classifyLoop_fields_store (lib : Lib) (row : Row) :
    ∀ s s2 : RowVars, classifyLoop lib s row = .ok s2 → (row.map Prod.fst).Nodup →
      (∀ k x, (k, x) ∈ s.fields → k ∉ row.map Prod.fst → (k, x) ∈ s2.fields) ∧
      (∀ n v, (n, v) ∈ row → v ≠ .null → (∀ b, v ≠ .bytes b) → n ≠ "dev_server_name" →
        n ≠ "dev_target_name" → n ≠ "time" → n ≠ "interval" → (n, v) ∈ s2.fields) := by
  induction row with
  | nil =>
    intro s s2 h _
    simp only [classifyLoop] at h
    injection h with h; subst h
    exact ⟨fun k x hk _ => hk, fun n v hv => absurd hv (List.not_mem_nil _)⟩
  | cons c rest ih =>
    intro s s2 h hnd
    obtain ⟨n0, v0⟩ := c
    obtain ⟨s1, h1, h2⟩ := classifyLoop_cons_ok lib s s2 n0 v0 rest h
    simp only [List.map_cons, List.nodup_cons] at hnd
    obtain ⟨g1, g2⟩ := classifyColumn_fields_store lib s s1 n0 v0 h1
    obtain ⟨i1, i2⟩ := ih s1 s2 h2 hnd.2
    refine ⟨?_, ?_⟩
    · intro k x hk hnot
      simp only [List.map_cons, List.mem_cons, not_or] at hnot
      exact i1 k x (g1 k x hk hnot.1) hnot.2
    · intro n v hv a1 a2 a3 a4 a5 a6
      rcases List.mem_cons.mp hv with hv | hv
      · injection hv with e1 e2
        subst e1; subst e2
        exact i1 _ _ (g2 a1 a2 a3 a4 a5 a6) hnd.1
      · exact i2 n v hv a1 a2 a3 a4 a5 a6

theorem GoMap.mem_set {α : Type} (m : GoMap α) (n : String) (v : α) (k : String) (x : α)
    (h : (k, x) ∈ m.set n v) : (k, x) ∈ m ∨ (k = n ∧ x = v) := by
  simp only [GoMap.set, List.mem_append, List.mem_filter, List.mem_singleton,
    Prod.mk.injEq] at h
  rcases h with ⟨h1, _⟩ | h1
  · exact Or.inl h1
  · exact Or.inr h1

/-- Every field entry after one column was there before or is the column itself. -/
theorem classifyColumn_fields_entries (lib : Lib) (s s1 : RowVars) (n : String) (v : Value)
    (h : classifyColumn lib s n v = .ok s1) (k : String) (x : Value) (hk : (k, x) ∈ s1.fields) :
    (k, x) ∈ s.fields ∨ (k = n ∧ x = v) := by
  cases v <;> simp only [classifyColumn] at h
  case null => injection h with h; subst h; exact Or.inl hk
  case bytes b =>
    split at h <;> (injection h with h; subst h; exact Or.inl hk)
  all_goals
    split at h
    · injection h with h; subst h; exact Or.inl hk
    · split at h
      · first
          | (injection h with h; subst h; exact Or.inl hk)
          | exact absurd h (by simp)
      · split at h
        · first
            | (injection h with h; subst h; exact Or.inl hk)
            | exact absurd h (by simp)
        · injection h with h
          subst h
          exact GoMap.mem_set _ _ _ _ _ hk

/-- Every field entry of a classified row was there before or is a column of the row. -/
theorem classifyLoop_fields_entries (lib : Lib) (row : Row) :
    ∀ s s2 : RowVars, classifyLoop lib s row = .ok s2 → ∀ k x, (k, x) ∈ s2.fields →
      (k, x) ∈ s.fields ∨ (k, x) ∈ row := by
  induction row with
  | nil =>
    intro s s2 h k x hk
    simp only [classifyLoop] at h
    injection h with h; subst h; exact Or.inl hk
  | cons c rest ih =>
    intro s s2 h k x hk
    obtain ⟨n, v⟩ := c
    obtain ⟨s1, h1, h2⟩ := classifyLoop_cons_ok lib s s2 n v rest h
    rcases ih s1 s2 h2 k x hk with h3 | h3
    · rcases classifyColumn_fields_entries lib s s1 n v h1 k x h3 with h4 | ⟨h4, h5⟩
      · exact Or.inl h4
      · exact Or.inr (by simp [h4, h5])
    · exact Or.inr (by simp [h3])

/-- C1 (amended): in a row with one entry per column name, a text/blob value of the
column `measurement` becomes the measurement name of the point, and `measurement` is a
key of neither the tag set nor the field set of the point; a non-null value of another
kind in that column is the value stored as the field `measurement`, the only entry under
that key, and leaves the measurement name as it was carried in. -/
theorem classifyRow_measurement_column (lib : Lib) (vpsa m : String) (i : Int) (row : Row)
    (s : RowVars) (hnd : (row.map Prod.fst).Nodup)
    (h : classifyRow lib vpsa m i row = .ok s) :
    (∀ b, ("measurement", Value.bytes b) ∈ row →
      s.point.name = b ∧ "measurement" ∉ s.point.tags.keys ∧
        "measurement" ∉ s.point.fields.keys) ∧
    (∀ v, ("measurement", v) ∈ row → v ≠ .null → (∀ b, v ≠ .bytes b) →
      s.point.name = m ∧ "measurement" ∉ s.point.tags.keys ∧
        "measurement" ∈ s.point.fields.keys ∧ ("measurement", v) ∈ s.point.fields ∧
        ∀ w, ("measurement", w) ∈ s.point.fields → w = v) := by
  unfold classifyRow at h
  have htag : "measurement" ∉ s.point.tags.keys := by
    intro hk
    rcases classifyLoop_tags_keys lib row _ s h "measurement" hk with h1 | ⟨h1, _⟩
    · simp [GoMap.keys] at h1
    · exact h1 rfl
  refine ⟨?_, ?_⟩
  · intro b hm
    refine ⟨?_, htag, ?_⟩
    · rcases classifyLoop_measurement lib row _ s h with h1 | ⟨_, h2⟩
      · have := row_value_unique row hnd "measurement" _ _ h1 hm
        injection this
      · exact absurd hm (h2 b)
    · intro hk
      rcases classifyLoop_fields_keys lib row _ s h "measurement" hk with h1 | ⟨v, hv, _, hv2⟩
      · simp [GoMap.keys] at h1
      · exact hv2 b (row_value_unique row hnd "measurement" _ _ hv hm)
  · intro v hv hv1 hv2
    refine ⟨?_, htag, ?_, ?_, ?_⟩
    · rcases classifyLoop_measurement lib row _ s h with h1 | ⟨h1, _⟩
      · exact absurd (row_value_unique row hnd "measurement" _ _ hv h1) (hv2 _)
      · exact h1
    · exact (classifyLoop_fields_grow lib row _ s h).2 "measurement" v hv hv1 hv2
        (by decide) (by decide) (by decide) (by decide)
    · exact (classifyLoop_fields_store lib row _ s h hnd).2 "measurement" v hv hv1 hv2
        (by decide) (by decide) (by decide) (by decide)
    · intro w hw
      rcases classifyLoop_fields_entries lib row _ s h "measurement" w hw with h1 | h1
      · simp at h1
      · exact row_value_unique row hnd "measurement" _ _ h1 hv

theorem classifyRow_measurement_column_witness :
    (rowIo.map Prod.fst).Nodup ∧ ("measurement", Value.bytes "io") ∈ rowIo ∧
    classifyRow libPlain "vpsa1" "" 0 rowIo = .ok varsIo ∧
    (varsIo.point.name = "io" ∧ "measurement" ∉ varsIo.point.tags.keys ∧
      "measurement" ∉ varsIo.point.fields.keys) ∧
    (rowIntMeasurement.map Prod.fst).Nodup ∧
    classifyRow libPlain "vpsa1" "" 0 rowIntMeasurement = .ok varsIntMeasurement ∧
    (varsIntMeasurement.point.name = "" ∧ "measurement" ∉ varsIntMeasurement.point.tags.keys ∧
      "measurement" ∈ varsIntMeasurement.point.fields.keys ∧
      ("measurement", Value.int 7) ∈ varsIntMeasurement.point.fields ∧
      ∀ w, ("measurement", w) ∈ varsIntMeasurement.point.fields → w = Value.int 7) :=
  ⟨by decide, by decide, by decide,
    (classifyRow_measurement_column libPlain "vpsa1" "" 0 rowIo varsIo (by decide)
      (by decide)).1 "io" (by decide),
    by decide, by decide,
    (classifyRow_measurement_column libPlain "vpsa1" "" 0 rowIntMeasurement varsIntMeasurement
      (by decide) (by decide)).2 (Value.int 7) (by decide) (by decide) (by simp)⟩

/-- C1 (as stated) fails for an integer value: the value of the column `measurement`
becomes a field keyed `measurement`, and the measurement name stays the one carried in. -/
theorem classifyRow_measurement_int_counterexample :
    classifyRow libPlain "vpsa1" "" 0 [("measurement", .int 7), ("iops", .real 0)] =
      .ok ⟨"", 0, 0, [("vpsa", "vpsa1")], [("measurement", .int 7), ("iops", .real 0)]⟩ ∧
    "measurement" ∈ GoMap.keys [("measurement", Value.int 7), ("iops", Value.real 0)] := by
  constructor <;> decide

/-- C7: in a row with one entry per column name, a column whose value is null is not a
key of the field set of the point, and is a key of its tag set only if it is named `vpsa`,
the tag added to every point. -/
theorem classifyRow_null_column (lib : Lib) (vpsa m : String) (i : Int) (row : Row)
    (n : String) (s : RowVars) (hnd : (row.map Prod.fst).Nodup)
    (hn : (n, Value.null) ∈ row)
    (h : classifyRow lib vpsa m i row = .ok s) :
    n ∉ s.point.fields.keys ∧ (n ∈ s.point.tags.keys → n = "vpsa") := by
  unfold classifyRow at h
  refine ⟨?_, ?_⟩
  · intro hk
    rcases classifyLoop_fields_keys lib row _ s h n hk with h1 | ⟨v, hv, hv1, _⟩
    · simp [GoMap.keys] at h1
    · exact hv1 (row_value_unique row hnd n _ _ hv hn)
  · intro hk
    rcases classifyLoop_tags_keys lib row _ s h n hk with h1 | ⟨_, v, hv, hv1⟩
    · simpa [GoMap.keys] using h1
    · exact absurd (row_value_unique row hnd n _ _ hv hn) hv1

theorem classifyRow_null_column_witness :
    (rowIo.map Prod.fst).Nodup ∧ ("latency_ms", Value.null) ∈ rowIo ∧
    classifyRow libPlain "vpsa1" "" 0 rowIo = .ok varsIo ∧
    ("latency_ms" ∉ varsIo.point.fields.keys ∧
      ("latency_ms" ∈ varsIo.point.tags.keys → "latency_ms" = "vpsa")) :=
  ⟨by decide, by decide, by decide,
    classifyRow_null_column libPlain "vpsa1" "" 0 rowIo "latency_ms" varsIo (by decide)
      (by decide) (by decide)⟩

/-! ## Classification does not depend on the carried measurement name and interval -/

theorem classifyColumn_forget (lib : Lib) (s : RowVars) (n : String) (v : Value) :
    (classifyColumn lib s n v).map RowVars.forget =
      (classifyColumn lib s.forget n v).map RowVars.forget := by
  cases v <;> simp only [classifyColumn]
  case null => rfl
  case bytes b => split <;> rfl
  all_goals
    split
    · rfl
    · split
      · rfl
      · split <;> rfl

theorem classifyLoop_forget (lib : Lib) (row : Row) :
    ∀ s s1 : RowVars, s.forget = s1.forget →
      (classifyLoop lib s row).map RowVars.forget =
        (classifyLoop lib s1 row).map RowVars.forget := by
  induction row with
  | nil =>
    intro s s1 h
    simp only [classifyLoop, Except.map, h]
  | cons c rest ih =>
    intro s s1 h
    obtain ⟨n, v⟩ := c
    have hc : (classifyColumn lib s n v).map RowVars.forget =
        (classifyColumn lib s1 n v).map RowVars.forget := by
      rw [classifyColumn_forget lib s, classifyColumn_forget lib s1, h]
    simp only [classifyLoop]
    cases h1 : classifyColumn lib s n v with
    | error e =>
      cases h2 : classifyColumn lib s1 n v with
      | error e2 =>
        rw [h1, h2] at hc
        simpa [Except.map] using hc
      | ok t2 =>
        rw [h1, h2] at hc
        simp [Except.map] at hc
    | ok t =>
      cases h2 : classifyColumn lib s1 n v with
      | error e2 =>
        rw [h1, h2] at hc
        simp [Except.map] at hc
      | ok t2 =>
        rw [h1, h2] at hc
        simp only [Except.map, Except.ok.injEq] at hc
        exact ih t t2 hc

theorem classifyRow_forget (lib : Lib) (vpsa m : String) (i : Int) (row : Row) :
    (classifyRow lib vpsa m i row).map RowVars.forget =
      (classifyRow lib vpsa "" 0 row).map RowVars.forget :=
  classifyLoop_forget lib row _ _ rfl

/-- A row that classifies with one carried state classifies with every other, to the
same fields. -/
theorem classifyRow_of_classifies (lib : Lib) (vpsa m : String) (i : Int) (row : Row)
    (h : classifies lib vpsa row = true) :
    ∃ s, classifyRow lib vpsa m i row = .ok s ∧
      decide (s.fields.length > 0) = yieldsField lib vpsa row := by
  have hf := classifyRow_forget lib vpsa m i row
  unfold classifies at h
  unfold yieldsField
  cases h0 : classifyRow lib vpsa "" 0 row with
  | error e => rw [h0] at h; simp at h
  | ok s0 =>
    cases h1 : classifyRow lib vpsa m i row with
    | error e =>
      rw [h0, h1] at hf
      simp [Except.map] at hf
    | ok s =>
      rw [h0, h1] at hf
      simp only [Except.map, Except.ok.injEq] at hf
      refine ⟨s, rfl, ?_⟩
      have : s.fields = s0.fields := by
        have := congrArg RowVars.fields hf
        simpa [RowVars.forget] using this
      simp [this]

/-! ## The row loop as batching by row count -/

theorem addRowPoint_ok (lib : Lib) (hp : ∀ p, lib.newPointErr p = none) (bp : List Point)
    (s : RowVars) :
    addRowPoint lib bp s = .ok (bp ++ (if s.fields.length > 0 then [s.point] else [])) := by
  unfold addRowPoint
  by_cases h : s.fields.length > 0
  · simp [h, hp]
  · simp [h]

/-- With a sink that accepts every batch, a `NewPoint` that accepts every point and rows
that all classify, the row loop and the final flush write the batches of `batches`. -/
theorem ingestRows_eq_batches (lib : Lib) (output : Sink) (vpsa : String)
    (hw : ∀ fl b, output fl b = none) (hp : ∀ p, lib.newPointErr p = none)
    (rows : List Row) :
    ∀ st : LoopVars, (∀ row ∈ rows, classifies lib vpsa row = true) →
      ingestRows lib output vpsa st (rows.map .ok) =
        ⟨st.flushed ++ batches commitSize st.count st.bp
          (rowPoints lib vpsa st.measurement st.interval rows), none⟩ := by
  induction rows with
  | nil =>
    intro st _
    simp [ingestRows, hw, batches, rowPoints]
  | cons row rest ih =>
    intro st hc
    have hrow : classifies lib vpsa row = true := hc row (by simp)
    have hrest : ∀ r ∈ rest, classifies lib vpsa r = true := fun r hr => hc r (by simp [hr])
    obtain ⟨s, hs, _⟩ := classifyRow_of_classifies lib vpsa st.measurement st.interval row hrow
    simp only [List.map_cons, ingestRows, ingestRow, hs, addRowPoint_ok lib hp, rowPoints,
      batches]
    by_cases hm : (st.count + 1) % commitSize = 0
    · simp only [hm, if_true, hw]
      rw [ih _ hrest]
      simp
    · simp only [hm, if_false]
      rw [ih _ hrest]

theorem rowPoints_length (lib : Lib) (vpsa : String) (rows : List Row) :
    ∀ (m : String) (i : Int), (∀ row ∈ rows, classifies lib vpsa row = true) →
      (rowPoints lib vpsa m i rows).length = rows.length := by
  induction rows with
  | nil => intro m i _; simp [rowPoints]
  | cons row rest ih =>
    intro m i hc
    obtain ⟨s, hs, _⟩ := classifyRow_of_classifies lib vpsa m i row (hc row (by simp))
    simp only [rowPoints, hs, List.length_cons]
    rw [ih _ _ (fun r hr => hc r (by simp [hr]))]

/-- Each row contributes its point when it yields a field and nothing otherwise. -/
theorem rowPoints_lengths (lib : Lib) (vpsa : String) (rows : List Row) :
    ∀ (m : String) (i : Int), (∀ row ∈ rows, classifies lib vpsa row = true) →
      (rowPoints lib vpsa m i rows).map List.length =
        rows.map (fun row => if yieldsField lib vpsa row then 1 else 0) := by
  induction rows with
  | nil => intro m i _; simp [rowPoints]
  | cons row rest ih =>
    intro m i hc
    obtain ⟨s, hs, hy⟩ := classifyRow_of_classifies lib vpsa m i row (hc row (by simp))
    simp only [rowPoints, hs, List.map_cons]
    rw [ih _ _ (fun r hr => hc r (by simp [hr]))]
    congr 1
    by_cases hf : s.fields.length > 0
    · have : yieldsField lib vpsa row = true := by rw [← hy]; simp [hf]
      simp [hf, this]
    · have : yieldsField lib vpsa row = false := by rw [← hy]; simp [hf]
      simp [hf, this]

/-! ## Batching by row count -/

theorem batches_flatten (size : Nat) (pr : List (List Point)) :
    ∀ (c : Nat) (b : List Point), (batches size c b pr).flatten = b ++ pr.flatten := by
  induction pr with
  | nil => intro c b; simp [batches]
  | cons p ps ih =>
    intro c b
    simp only [batches]
    split
    · simp [ih]
    · simp [ih]

/-- No batch is written before the row count reaches the next multiple of the size. -/
theorem batches_short (size : Nat) (pr : List (List Point)) :
    ∀ (c : Nat) (b : List Point), c % size + pr.length < size →
      batches size c b pr = [b ++ pr.flatten] := by
  induction pr with
  | nil => intro c b _; simp [batches]
  | cons p ps ih =>
    intro c b h
    simp only [List.length_cons] at h
    have hlt : c % size + 1 < size := by omega
    have hmod : (c + 1) % size = c % size + 1 := by
      rw [Nat.add_mod, Nat.mod_eq_of_lt (a := 1) (by omega), Nat.mod_eq_of_lt hlt]
    simp only [batches, hmod]
    rw [if_neg (by omega), ih (c + 1) (b ++ p) (by omega)]
    simp

/-- The rows up to the next multiple of the size form one batch. -/
theorem batches_fill (size : Nat) (pr1 : List (List Point)) :
    ∀ (c : Nat) (b : List Point) (pr2 : List (List Point)), c % size + pr1.length = size →
      0 < pr1.length →
      batches size c b (pr1 ++ pr2) =
        (b ++ pr1.flatten) :: batches size (c + pr1.length) [] pr2 := by
  induction pr1 with
  | nil => intro c b pr2 _ h; simp at h
  | cons p ps ih =>
    intro c b pr2 h _
    simp only [List.length_cons] at h
    have hsz : 0 < size := by omega
    by_cases hps : ps.length = 0
    · have hnil : ps = [] := List.length_eq_zero.mp hps
      have h1 : c % size + 1 = size := by omega
      subst hnil
      have hmod : (c + 1) % size = 0 := by
        by_cases h2 : size = 1
        · rw [h2, Nat.mod_one]
        · rw [Nat.add_mod, Nat.mod_eq_of_lt (a := 1) (by omega), h1, Nat.mod_self]
      simp [batches, hmod]
    · have hlt : c % size + 1 < size := by omega
      have hmod : (c + 1) % size = c % size + 1 := by
        rw [Nat.add_mod, Nat.mod_eq_of_lt (a := 1) (by omega), Nat.mod_eq_of_lt hlt]
      simp only [List.cons_append, batches, hmod, List.append_eq]
      rw [if_neg (by omega), ih (c + 1) (b ++ p) pr2 (by omega) (by omega)]
      simp [Nat.add_assoc, Nat.add_comm 1]

/-- Batching from a multiple of the size: the `k`-th batch written before the final one
holds the points of rows `k * size` to `k * size + size - 1`, the final one the rest. -/
theorem batches_chunks (size : Nat) (hsz : 0 < size) :
    ∀ (n : Nat) (pr : List (List Point)) (c : Nat), pr.length = n → c % size = 0 →
      batches size c [] pr =
        (List.range (n / size)).map (fun k => ((pr.drop (k * size)).take size).flatten) ++
          [(pr.drop (n / size * size)).flatten] := by
  intro n
  induction n using Nat.strong_induction_on with
  | _ n ih =>
    intro pr c hlen hc
    by_cases hlt : n < size
    · rw [batches_short size pr c [] (by omega)]
      simp [Nat.div_eq_of_lt hlt]
    · have hge : size ≤ n := Nat.le_of_not_lt hlt
      have htake : (pr.take size).length = size := by
        rw [List.length_take]; omega
      have hdrop : (pr.drop size).length = n - size := by
        rw [List.length_drop]; omega
      have hsplit : pr = pr.take size ++ pr.drop size := (List.take_append_drop size pr).symm
      have hdiv : n / size = (n - size) / size + 1 := by
        rw [Nat.div_eq n size, if_pos ⟨hsz, hge⟩]
      have hb : batches size c [] pr =
          (pr.take size).flatten :: batches size (c + size) [] (pr.drop size) := by
        conv_lhs => rw [hsplit]
        rw [batches_fill size (pr.take size) c [] (pr.drop size) (by omega) (by omega), htake]
        simp
      rw [hb, ih (n - size) (by omega) (pr.drop size) (c + size) hdrop
        (by rw [Nat.add_mod, hc, Nat.mod_self]; simp), hdiv, List.range_succ_eq_map]
      simp only [List.map_cons, List.map_map, List.cons_append, Nat.zero_mul, List.drop_zero,
        List.drop_drop]
      congr 1
      congr 1
      · apply List.map_congr_left
        intro k _
        simp only [Function.comp, Nat.succ_mul]
        rw [Nat.add_comm]
      · congr 2
        rw [Nat.succ_mul, Nat.add_comm]

/-! ## `ingestMeteringTable` on the success path -/

theorem ingestMeteringTable_eq_ingestRows (lib : Lib) (d : Dataio) (tableName vpsa : String)
    (tableCount : Int) (queryName : String) (stream : List (Except Err Row))
    (h1 : d.input.countRows tableName = .ok tableCount)
    (h2 : selectQueryName d.input tableName = .ok queryName)
    (h3 : d.input.queryx (sqlSelect queryName) = .ok stream) :
    ingestMeteringTable lib d tableName vpsa =
      ingestRows lib d.output vpsa
        ⟨0, [], "", 0, Int.tdiv tableCount (commitSize : Int), []⟩ stream := by
  simp [ingestMeteringTable, h1, h2, h3]

/-- The batches `ingestMeteringTable` writes when every store query succeeds, the sink
accepts every batch, `NewPoint` accepts every point and every row classifies: one batch
per full block of `commitSize` rows, then the final batch with the rest. -/
theorem ingestMeteringTable_flushes (lib : Lib) (d : Dataio) (tableName vpsa : String)
    (tableCount : Int) (queryName : String) (rows : List Row)
    (h1 : d.input.countRows tableName = .ok tableCount)
    (h2 : selectQueryName d.input tableName = .ok queryName)
    (h3 : d.input.queryx (sqlSelect queryName) = .ok (rows.map .ok))
    (hw : ∀ fl b, d.output fl b = none) (hp : ∀ p, lib.newPointErr p = none)
    (hc : ∀ row ∈ rows, classifies lib vpsa row = true) :
    ingestMeteringTable lib d tableName vpsa =
      ⟨(List.range (rows.length / commitSize)).map
          (fun k => (((rowPoints lib vpsa "" 0 rows).drop (k * commitSize)).take
            commitSize).flatten) ++
        [((rowPoints lib vpsa "" 0 rows).drop
            (rows.length / commitSize * commitSize)).flatten], none⟩ := by
  rw [ingestMeteringTable_eq_ingestRows lib d tableName vpsa tableCount queryName _ h1 h2 h3,
    ingestRows_eq_batches lib d.output vpsa hw hp rows _ hc]
  simp only [List.nil_append]
  rw [batches_chunks commitSize (by decide) rows.length _ 0
    (rowPoints_length lib vpsa rows "" 0 hc) (by simp)]

theorem sum_indicator_eq_length_filter {α : Type} (p : α → Bool) (l : List α) :
    (l.map (fun a => if p a then 1 else 0)).sum = (l.filter p).length := by
  induction l with
  | nil => simp
  | cons a l ih =>
    by_cases h : p a = true
    · simp [h, ih, Nat.add_comm]
    · simp [h, ih]

/-- The number of points in a block of rows is the number of its rows that yield a field. -/
theorem rowPoints_block_length (lib : Lib) (vpsa : String) (rows : List Row)
    (hc : ∀ row ∈ rows, classifies lib vpsa row = true) (j size : Nat) :
    (((rowPoints lib vpsa "" 0 rows).drop j).take size).flatten.length =
      (((rows.drop j).take size).filter (yieldsField lib vpsa)).length := by
  rw [List.length_flatten, List.map_take, List.map_drop,
    rowPoints_lengths lib vpsa rows "" 0 hc, ← List.map_drop, ← List.map_take,
    sum_indicator_eq_length_filter]

theorem rowPoints_rest_length (lib : Lib) (vpsa : String) (rows : List Row)
    (hc : ∀ row ∈ rows, classifies lib vpsa row = true) (j : Nat) :
    ((rowPoints lib vpsa "" 0 rows).drop j).flatten.length =
      ((rows.drop j).filter (yieldsField lib vpsa)).length := by
  rw [List.length_flatten, List.map_drop,
    rowPoints_lengths lib vpsa rows "" 0 hc, ← List.map_drop,
    sum_indicator_eq_length_filter]

theorem classifies_of_yieldsField (lib : Lib) (vpsa : String) (row : Row)
    (h : yieldsField lib vpsa row = true) : classifies lib vpsa row = true := by
  unfold yieldsField at h
  unfold classifies
  cases h0 : classifyRow lib vpsa "" 0 row with
  | error e => rw [h0] at h; simp at h
  | ok s => rfl

/-! ## Rows with values in `time`, `interval` and `measurement` only -/

theorem classifyColumn_special (lib : Lib) (s : RowVars) (n : String) (v : Value)
    (h : v = .null ∨ (n = "measurement" ∧ ∃ b, v = .bytes b) ∨
      (n = "time" ∧ ((∃ b, v = .bytes b) ∨ ∃ t, v = .time t)) ∨
      (n = "interval" ∧ ((∃ b, v = .bytes b) ∨ ∃ i, v = .int i))) :
    ∃ s1, classifyColumn lib s n v = .ok s1 ∧ s1.fields = s.fields := by
  rcases h with h | ⟨hn, b, hb⟩ | ⟨hn, ⟨b, hb⟩ | ⟨t, ht⟩⟩ | ⟨hn, ⟨b, hb⟩ | ⟨i, hi⟩⟩
  · subst h; exact ⟨s, rfl, rfl⟩
  · subst hn; subst hb; exact ⟨_, rfl, rfl⟩
  · subst hn; subst hb; exact ⟨_, rfl, rfl⟩
  · subst hn; subst ht; exact ⟨_, rfl, rfl⟩
  · subst hn; subst hb; exact ⟨_, rfl, rfl⟩
  · subst hn; subst hi; exact ⟨_, rfl, rfl⟩

theorem classifyLoop_special (lib : Lib) (row : Row) :
    ∀ s : RowVars,
      (∀ c ∈ row, c.2 = .null ∨ (c.1 = "measurement" ∧ ∃ b, c.2 = .bytes b) ∨
        (c.1 = "time" ∧ ((∃ b, c.2 = .bytes b) ∨ ∃ t, c.2 = .time t)) ∨
        (c.1 = "interval" ∧ ((∃ b, c.2 = .bytes b) ∨ ∃ i, c.2 = .int i))) →
      ∃ s2, classifyLoop lib s row = .ok s2 ∧ s2.fields = s.fields := by
  induction row with
  | nil => intro s _; exact ⟨s, rfl, rfl⟩
  | cons c rest ih =>
    intro s h
    obtain ⟨n, v⟩ := c
    obtain ⟨s1, h1, hf1⟩ := classifyColumn_special lib s n v (h (n, v) (by simp))
    obtain ⟨s2, h2, hf2⟩ := ih s1 (fun c hc => h c (by simp [hc]))
    refine ⟨s2, ?_, by rw [hf2, hf1]⟩
    simp only [classifyLoop, h1, h2]

/-! ## Batching claims -/

theorem filter_eq_self_of_all {α : Type} (p : α → Bool) (l : List α) (h : ∀ a ∈ l, p a = true) :
    l.filter p = l := List.filter_eq_self.mpr h

/-- C3 (amended): when the store queries succeed, the sink accepts every batch, `NewPoint`
accepts every point and each of the `n` rows yields at least one field,
`ingestMeteringTable` returns no error after writing `n / 10000` batches of 10,000 points
followed by one batch of `n % 10000` points, and the batches concatenated are the
classified points in row order; for `n = 25000` the batch sizes are 10,000, 10,000,
5,000. -/
theorem ingestMeteringTable_full_batches (lib : Lib) (d : Dataio) (tableName vpsa : String)
    (tableCount : Int) (queryName : String) (rows : List Row)
    (h1 : d.input.countRows tableName = .ok tableCount)
    (h2 : selectQueryName d.input tableName = .ok queryName)
    (h3 : d.input.queryx (sqlSelect queryName) = .ok (rows.map .ok))
    (hw : ∀ fl b, d.output fl b = none) (hp : ∀ p, lib.newPointErr p = none)
    (hy : ∀ row ∈ rows, yieldsField lib vpsa row = true) :
    (ingestMeteringTable lib d tableName vpsa).err = none ∧
    (ingestMeteringTable lib d tableName vpsa).flushed.map List.length =
      List.replicate (rows.length / 10000) 10000 ++ [rows.length % 10000] ∧
    (ingestMeteringTable lib d tableName vpsa).flushed.flatten = classifiedPoints lib vpsa rows ∧
    (classifiedPoints lib vpsa rows).length = rows.length ∧
    (rows.length = 25000 →
      (ingestMeteringTable lib d tableName vpsa).flushed.map List.length =
        [10000, 10000, 5000]) := by
  have hc : ∀ row ∈ rows, classifies lib vpsa row = true :=
    fun row hr => classifies_of_yieldsField lib vpsa row (hy row hr)
  have hfl := ingestMeteringTable_flushes lib d tableName vpsa tableCount queryName rows
    h1 h2 h3 hw hp hc
  have hlens : (ingestMeteringTable lib d tableName vpsa).flushed.map List.length =
      List.replicate (rows.length / 10000) 10000 ++ [rows.length % 10000] := by
    rw [hfl]
    simp only [List.map_append, List.map_map, List.map_cons, List.map_nil]
    congr 1
    · rw [List.eq_replicate_iff]
      refine ⟨by simp [commitSize], ?_⟩
      intro x hx
      obtain ⟨k, hk, hkx⟩ := List.mem_map.mp hx
      rw [← hkx]
      simp only [Function.comp]
      rw [rowPoints_block_length lib vpsa rows hc,
        filter_eq_self_of_all _ _ (fun a ha =>
          hy a (List.mem_of_mem_drop (List.mem_of_mem_take ha))),
        List.length_take, List.length_drop]
      have hk1 : k + 1 ≤ rows.length / commitSize := by
        have := List.mem_range.mp hk
        omega
      have hk2 := Nat.mul_le_of_le_div commitSize (k + 1) rows.length hk1
      rw [Nat.succ_mul] at hk2
      simp only [commitSize] at hk2 ⊢
      omega
    · congr 1
      rw [rowPoints_rest_length lib vpsa rows hc,
        filter_eq_self_of_all _ _ (fun a ha => hy a (List.mem_of_mem_drop ha)),
        List.length_drop]
      have := Nat.div_add_mod rows.length commitSize
      have hcomm : rows.length / commitSize * commitSize =
          commitSize * (rows.length / commitSize) := Nat.mul_comm _ _
      simp only [commitSize] at this hcomm ⊢
      omega
  have hflat : (ingestMeteringTable lib d tableName vpsa).flushed.flatten =
      classifiedPoints lib vpsa rows := by
    rw [ingestMeteringTable_eq_ingestRows lib d tableName vpsa tableCount queryName _ h1 h2 h3,
      ingestRows_eq_batches lib d.output vpsa hw hp rows _ hc]
    simp only [List.nil_append, batches_flatten, classifiedPoints]
  have hcount : (classifiedPoints lib vpsa rows).length = rows.length := by
    have := rowPoints_rest_length lib vpsa rows hc 0
    simp only [List.drop_zero] at this
    rw [classifiedPoints, this, filter_eq_self_of_all _ _ hy]
  refine ⟨by rw [hfl], hlens, hflat, hcount, ?_⟩
  intro hn
  rw [hlens, hn]
  rfl

theorem ingestMeteringTable_full_batches_witness :
    (∀ row ∈ List.replicate 25000 rowIo, yieldsField libPlain "vpsa1" row = true) ∧
    (ingestMeteringTable libPlain (dataioRows (List.replicate 25000 rowIo)) "metering_info"
      "vpsa1").err = none ∧
    (ingestMeteringTable libPlain (dataioRows (List.replicate 25000 rowIo)) "metering_info"
      "vpsa1").flushed.map List.length = [10000, 10000, 5000] :=
  have hy : ∀ row ∈ List.replicate 25000 rowIo, yieldsField libPlain "vpsa1" row = true := by
    intro row hr
    rw [(List.mem_replicate.mp hr).2]
    decide
  have h := ingestMeteringTable_full_batches libPlain (dataioRows (List.replicate 25000 rowIo))
    "metering_info" "vpsa1" ((List.replicate 25000 rowIo).length : Int) "metering_info_us"
    (List.replicate 25000 rowIo) rfl (by decide) rfl (fun _ _ => rfl) (fun _ => rfl) hy
  ⟨hy, h.1, h.2.2.2.2 (List.length_replicate _ _)⟩

/-- C3 (as stated) fails: the one row of the stream yields a field and the sink accepts
every batch, but `NewPoint` rejects the point, so `ingestMeteringTable` returns that error
and performs no flush at all, not even the final one. -/
theorem ingestMeteringTable_newPoint_error_counterexample :
    yieldsField libStrict "vpsa1" rowInf = true ∧
    (∀ fl b, (dataioRows [rowInf]).output fl b = none) ∧
    ingestMeteringTable libStrict (dataioRows [rowInf]) "metering_info" "vpsa1" =
      ⟨[], some (.error "+/-Inf is an unsupported value for field")⟩ := by
  refine ⟨by decide, fun _ _ => rfl, by decide⟩

/-- C2 (amended): when the store queries succeed, the sink accepts every batch, `NewPoint`
accepts every point and every row classifies, a flush before the final one happens
exactly when the number of rows read, rows without fields included, reaches a multiple of
10,000: the run writes one batch per full block of 10,000 rows, holding the points of
these rows, and then the final batch; a batch of a block has as many points as the block
has rows that yield a field, hence at most 10,000. -/
theorem ingestMeteringTable_flush_by_row_count (lib : Lib) (d : Dataio)
    (tableName vpsa : String) (tableCount : Int) (queryName : String) (rows : List Row)
    (h1 : d.input.countRows tableName = .ok tableCount)
    (h2 : selectQueryName d.input tableName = .ok queryName)
    (h3 : d.input.queryx (sqlSelect queryName) = .ok (rows.map .ok))
    (hw : ∀ fl b, d.output fl b = none) (hp : ∀ p, lib.newPointErr p = none)
    (hc : ∀ row ∈ rows, classifies lib vpsa row = true) :
    (ingestMeteringTable lib d tableName vpsa).err = none ∧
    (ingestMeteringTable lib d tableName vpsa).flushed =
      (List.range (rows.length / 10000)).map
          (fun k => (((rowPoints lib vpsa "" 0 rows).drop (k * 10000)).take 10000).flatten) ++
        [((rowPoints lib vpsa "" 0 rows).drop (rows.length / 10000 * 10000)).flatten] ∧
    (ingestMeteringTable lib d tableName vpsa).flushed.length = rows.length / 10000 + 1 ∧
    ∀ k, ((((rowPoints lib vpsa "" 0 rows).drop (k * 10000)).take 10000).flatten).length =
        (((rows.drop (k * 10000)).take 10000).filter (yieldsField lib vpsa)).length ∧
      ((((rowPoints lib vpsa "" 0 rows).drop (k * 10000)).take 10000).flatten).length
        ≤ 10000 := by
  have hfl := ingestMeteringTable_flushes lib d tableName vpsa tableCount queryName rows
    h1 h2 h3 hw hp hc
  refine ⟨by rw [hfl], by rw [hfl]; rfl, by rw [hfl]; simp [commitSize], ?_⟩
  intro k
  have hb := rowPoints_block_length lib vpsa rows hc (k * 10000) 10000
  refine ⟨hb, ?_⟩
  rw [hb]
  calc (((rows.drop (k * 10000)).take 10000).filter (yieldsField lib vpsa)).length
      ≤ ((rows.drop (k * 10000)).take 10000).length := List.length_filter_le _ _
    _ ≤ 10000 := by rw [List.length_take]; omega

theorem rowsDropFirst_classifies :
    ∀ row ∈ rowsDropFirst, classifies libPlain "vpsa1" row = true := by
  intro row hr
  rcases List.mem_cons.mp hr with h | h
  · rw [h]; decide
  · rw [(List.mem_replicate.mp h).2]; decide

theorem ingestMeteringTable_flush_by_row_count_witness :
    (∀ row ∈ rowsDropFirst, classifies libPlain "vpsa1" row = true) ∧
    (ingestMeteringTable libPlain (dataioRows rowsDropFirst) "metering_sys_info" "vpsa1").err
      = none ∧
    (ingestMeteringTable libPlain (dataioRows rowsDropFirst) "metering_sys_info"
      "vpsa1").flushed.length = rowsDropFirst.length / 10000 + 1 ∧
    ((((rowPoints libPlain "vpsa1" "" 0 rowsDropFirst).drop (0 * 10000)).take
      10000).flatten).length ≤ 10000 :=
  have h := ingestMeteringTable_flush_by_row_count libPlain (dataioRows rowsDropFirst)
    "metering_sys_info" "vpsa1" (rowsDropFirst.length : Int) "metering_sys_info" rowsDropFirst
    rfl (by decide) rfl (fun _ _ => rfl) (fun _ => rfl) rowsDropFirst_classifies
  ⟨rowsDropFirst_classifies, h.1, h.2.2.1, (h.2.2.2 0).2⟩

theorem filter_replicate_all {α : Type} (p : α → Bool) (a : α) (h : p a = true) (n : Nat) :
    (List.replicate n a).filter p = List.replicate n a :=
  List.filter_eq_self.mpr (fun x hx => by rw [(List.mem_replicate.mp hx).2]; exact h)

/-- C2 (as stated) fails: of 10,000 rows the first yields no field, and the batch flushed
before the final one holds 9,999 points, not 10,000. -/
theorem ingestMeteringTable_dropped_row_counterexample :
    rowsDropFirst.length = 10000 ∧
    yieldsField libPlain "vpsa1" rowSpecialOnly = false ∧
    (ingestMeteringTable libPlain (dataioRows rowsDropFirst) "metering_sys_info" "vpsa1").err
      = none ∧
    (ingestMeteringTable libPlain (dataioRows rowsDropFirst) "metering_sys_info"
      "vpsa1").flushed.map List.length = [9999, 0] := by
  have hlen : rowsDropFirst.length = 10000 := by
    rw [rowsDropFirst, List.length_cons, List.length_replicate]
  have hfl := ingestMeteringTable_flushes libPlain (dataioRows rowsDropFirst)
    "metering_sys_info" "vpsa1" (rowsDropFirst.length : Int) "metering_sys_info" rowsDropFirst
    rfl (by decide) rfl (fun _ _ => rfl) (fun _ => rfl) rowsDropFirst_classifies
  have hdiv : rowsDropFirst.length / commitSize = 1 := by rw [hlen]; rfl
  have hy0 : yieldsField libPlain "vpsa1" rowSpecialOnly = false := by decide
  have hy1 : yieldsField libPlain "vpsa1" rowIo = true := by decide
  refine ⟨hlen, hy0, by rw [hfl], ?_⟩
  have hr : List.range 1 = [0] := rfl
  rw [hfl, hdiv, hr]
  simp only [List.map_cons, List.map_nil, List.map_append, List.cons_append,
    List.nil_append, Nat.zero_mul, Nat.one_mul]
  rw [rowPoints_block_length libPlain "vpsa1" rowsDropFirst rowsDropFirst_classifies,
    rowPoints_rest_length libPlain "vpsa1" rowsDropFirst rowsDropFirst_classifies]
  have htake : (rowsDropFirst.drop 0).take commitSize = rowsDropFirst := by
    rw [List.drop_zero, List.take_of_length_le (by rw [hlen]; decide)]
  have hdrop : rowsDropFirst.drop commitSize = [] := by
    rw [List.drop_of_length_le (by rw [hlen]; decide)]
  have hfilter : rowsDropFirst.filter (yieldsField libPlain "vpsa1") =
      List.replicate 9999 rowIo := by
    rw [rowsDropFirst, List.filter_cons_of_neg (by rw [hy0]; simp),
      filter_replicate_all _ _ hy1]
  rw [htake, hdrop, hfilter, List.length_replicate]
  rfl

/-! ## Rows without fields -/

/-- C8 (amended): a row whose only non-null values are a text `measurement`, a `time` that
is a timestamp or text, and an `interval` that is an integer or text classifies to an
empty field set, adds no point to the batch and raises no error; and when the store
queries succeed, the sink accepts every batch, `NewPoint` accepts every point and every
row classifies, the points written over all flushes are as many as the rows that yield at
least one field. -/
theorem ingestMeteringTable_drops_fieldless_rows (lib : Lib) (d : Dataio)
    (tableName vpsa : String) (tableCount : Int) (queryName : String) (rows : List Row)
    (h1 : d.input.countRows tableName = .ok tableCount)
    (h2 : selectQueryName d.input tableName = .ok queryName)
    (h3 : d.input.queryx (sqlSelect queryName) = .ok (rows.map .ok))
    (hw : ∀ fl b, d.output fl b = none) (hp : ∀ p, lib.newPointErr p = none)
    (hc : ∀ row ∈ rows, classifies lib vpsa row = true) :
    (∀ (m : String) (i : Int) (row : Row),
      (∀ c ∈ row, c.2 = .null ∨ (c.1 = "measurement" ∧ ∃ b, c.2 = .bytes b) ∨
        (c.1 = "time" ∧ ((∃ b, c.2 = .bytes b) ∨ ∃ t, c.2 = .time t)) ∨
        (c.1 = "interval" ∧ ((∃ b, c.2 = .bytes b) ∨ ∃ i, c.2 = .int i))) →
      ∃ s, classifyRow lib vpsa m i row = .ok s ∧ s.fields = [] ∧
        (∀ bp, addRowPoint lib bp s = .ok bp) ∧
        ∀ st : LoopVars, st.measurement = m → st.interval = i →
          ∃ st1, ingestRow lib d.output vpsa st (.ok row) = .ok st1 ∧
            st1.flushed.flatten ++ st1.bp = st.flushed.flatten ++ st.bp) ∧
    (ingestMeteringTable lib d tableName vpsa).err = none ∧
    (ingestMeteringTable lib d tableName vpsa).flushed.flatten.length =
      (rows.filter (yieldsField lib vpsa)).length := by
  refine ⟨?_, ?_, ?_⟩
  · intro m i row hrow
    obtain ⟨s, hs, hf⟩ := classifyLoop_special lib row ⟨m, i, 0, [("vpsa", vpsa)], []⟩ hrow
    have hf0 : s.fields = [] := hf
    have hadd : ∀ bp, addRowPoint lib bp s = .ok bp := by
      intro bp
      simp [addRowPoint, hf0]
    refine ⟨s, hs, hf0, hadd, ?_⟩
    intro st hm hi
    have hs1 : classifyRow lib vpsa st.measurement st.interval row = .ok s := by
      rw [hm, hi]; exact hs
    by_cases hmod : (st.count + 1) % commitSize = 0
    · refine ⟨⟨st.count + 1, [], s.measurement, s.interval, st.remainingChunks - 1,
        st.flushed ++ [st.bp]⟩, ?_, by simp⟩
      simp [ingestRow, hs1, hadd, hmod, hw]
    · refine ⟨⟨st.count + 1, st.bp, s.measurement, s.interval, st.remainingChunks,
        st.flushed⟩, ?_, rfl⟩
      simp [ingestRow, hs1, hadd, hmod]
  · rw [ingestMeteringTable_flushes lib d tableName vpsa tableCount queryName rows
      h1 h2 h3 hw hp hc]
  · rw [ingestMeteringTable_eq_ingestRows lib d tableName vpsa tableCount queryName _ h1 h2 h3,
      ingestRows_eq_batches lib d.output vpsa hw hp rows _ hc]
    simp only [List.nil_append, batches_flatten]
    have := rowPoints_rest_length lib vpsa rows hc 0
    simpa using this

theorem ingestMeteringTable_drops_fieldless_rows_witness :
    (∀ row ∈ rowsSmall, classifies libPlain "vpsa1" row = true) ∧
    (ingestMeteringTable libPlain (dataioRows rowsSmall) "metering_sys_info" "vpsa1").err
      = none ∧
    (ingestMeteringTable libPlain (dataioRows rowsSmall) "metering_sys_info"
      "vpsa1").flushed.flatten.length = (rowsSmall.filter (yieldsField libPlain "vpsa1")).length ∧
    (rowsSmall.filter (yieldsField libPlain "vpsa1")).length = 2 :=
  have hc : ∀ row ∈ rowsSmall, classifies libPlain "vpsa1" row = true := by decide
  have h := ingestMeteringTable_drops_fieldless_rows libPlain (dataioRows rowsSmall)
    "metering_sys_info" "vpsa1" 3 "metering_sys_info" rowsSmall rfl (by decide) rfl
    (fun _ _ => rfl) (fun _ => rfl) hc
  ⟨hc, h.2.1, h.2.2, by decide⟩

/-- C8 (as stated) fails: a row whose only non-null value is an integer `measurement`
yields the field `measurement` and a point; a row whose only non-null value is an integer
`time`, or a real `interval`, ends the run with a failed type assertion. -/
theorem classifyRow_special_kinds_counterexample :
    classifyRow libPlain "vpsa1" "" 0 [("measurement", .int 7), ("iops", .null)] =
      .ok ⟨"", 0, 0, [("vpsa", "vpsa1")], [("measurement", .int 7)]⟩ ∧
    addRowPoint libPlain [] ⟨"", 0, 0, [("vpsa", "vpsa1")], [("measurement", .int 7)]⟩ =
      .ok [⟨"", [("vpsa", "vpsa1")], [("measurement", .int 7)], 0⟩] ∧
    classifyRow libPlain "vpsa1" "" 0 [("time", .int 1530000000), ("iops", .null)] =
      .error (.panic "interface conversion: not time.Time") ∧
    classifyRow libPlain "vpsa1" "" 0 [("interval", .real 0), ("iops", .null)] =
      .error (.panic "interface conversion: not int64") := by
  refine ⟨?_, ?_, ?_, ?_⟩ <;> decide

end ZadaraMetering
